import Mathlib

/-!
# svn-stat: diff parser, revision cache, diff retrieval, commit aggregator

A shallow embedding of `server-go/stats/stats.go`, `server-go/svn/svn.go` and
`server-go/cache/cache.go`.

Conventions of the embedding.

* A Go `map[string]V` is a `GoMap V`: an association list with unique keys, kept in
  insertion order. `range` over a map visits the entries in that order (Go leaves the
  order unspecified).
* A Go `int` is an `Int`. The totals loop of `GenerateAnalysisResults` adds fields of
  commits it is given, so each of its additions wraps to 64 bits (`wrap64`); the other
  counters count lines of a text or entries of a list and stay far below `2^63`.
* A Go struct held in a map is a value: `stats := m[k]` copies it, and an update of
  `stats` reaches the map only through a later `m[k] = stats`.
* The standard library is outside the repository: the formatting of a parsed
  RFC 3339 date (`time`), the regular-expression matcher (`regexp`), `md5` and the
  clock are parameters; the external `svn` client is a parameter as well.
-/

namespace SvnStat

/-! ## Go maps with string keys -/

/-- A Go map with string keys, as an association list in insertion order. -/
abbrev GoMap (V : Type) := List (String × V)

namespace GoMap

variable {V : Type}

/-- The comma-ok lookup `v, exists := m[k]`. -/
def get? : GoMap V → String → Option V
  | [], _ => none
  | (k, v) :: rest, key => if k = key then some v else get? rest key

/-- The presence test `_, exists := m[k]`. -/
def contains (m : GoMap V) (key : String) : Bool := (get? m key).isSome

/-- The plain lookup `m[k]`, which yields the zero value of `V` for an absent key. -/
def getD [Inhabited V] (m : GoMap V) (key : String) : V := (get? m key).getD default

/-- The assignment `m[k] = v`: overwrite the entry of `k`, or add a new one. -/
def set : GoMap V → String → V → GoMap V
  | [], key, val => [(key, val)]
  | (k, v) :: rest, key, val =>
    if k = key then (k, val) :: rest else (k, v) :: set rest key val

/-- The keys of the map, in iteration order. -/
def keys (m : GoMap V) : List String := m.map Prod.fst

/-- The values of the map, in iteration order. -/
def values (m : GoMap V) : List V := m.map Prod.snd

end GoMap

/-! ## stats.go: data model -/

/-- The struct `FileDetail` (the same fields in `stats.go` and `svn.go`). -/
structure FileDetail where
  LinesAdded : Int
  LinesDeleted : Int
  Cached : Bool
  Author : String
  deriving DecidableEq, Repr

instance : Inhabited FileDetail := ⟨⟨0, 0, false, ""⟩⟩

/-- The struct `ChangedFile`. -/
structure ChangedFile where
  Path : String
  Action : String
  Branch : String
  deriving DecidableEq, Repr

/-- The struct `Commit`. -/
structure Commit where
  Revision : String
  Author : String
  Date : String
  DateStr : String
  BranchURL : String
  FilesChanged : Int
  ChangedFiles : List ChangedFile
  Branches : List String
  LinesAdded : Int
  LinesDeleted : Int
  FileDetails : GoMap FileDetail
  deriving DecidableEq, Repr

/-- The struct `AuthorStats`. -/
structure AuthorStats where
  Commits : Int
  FilesChanged : Int
  LinesAdded : Int
  LinesDeleted : Int
  Branches : List String
  deriving DecidableEq, Repr

/-- The zero value `AuthorStats{}`. -/
instance : Inhabited AuthorStats := ⟨⟨0, 0, 0, 0, []⟩⟩

/-- The struct `BranchStats`. -/
structure BranchStats where
  Commits : Int
  FilesChanged : Int
  LinesAdded : Int
  LinesDeleted : Int
  Authors : List String
  deriving DecidableEq, Repr

/-- The zero value `BranchStats{}`. -/
instance : Inhabited BranchStats := ⟨⟨0, 0, 0, 0, []⟩⟩

/-- The struct `ChartDataSeries`. -/
structure ChartDataSeries where
  Label : String
  Data : List Int
  deriving DecidableEq, Repr

/-- The struct `ChartData`. -/
structure ChartData where
  Months : List String
  Days : List String
  Authors : List String
  Branches : List String
  MonthlyDataFiles : List ChartDataSeries
  MonthlyDataLines : List ChartDataSeries
  DailyDataFiles : List ChartDataSeries
  DailyDataLines : List ChartDataSeries
  deriving DecidableEq, Repr

/-- The struct `Filter`. -/
structure Filter where
  StartDate : String
  EndDate : String
  RevisionRange : String
  deriving DecidableEq, Repr

/-- The nested table `map[string]map[string]map[string]AuthorStats`:
period key, then branch, then author. -/
abbrev PeriodTable := GoMap (GoMap (GoMap AuthorStats))

/-- The bucket of a period table at (period key, branch, author), if present:
the comma-ok lookup `table[key][branch][author]`. -/
def PeriodTable.bucket? (table : PeriodTable) (key branch author : String) :
    Option AuthorStats :=
  ((GoMap.getD table key).getD branch).get? author

/-- The struct `AnalysisResults`. -/
structure AnalysisResults where
  Commits : List Commit
  MonthlyStats : PeriodTable
  AuthorStats : GoMap AuthorStats
  BranchStats : GoMap BranchStats
  DailyStats : PeriodTable
  ChartData : ChartData
  TotalCommits : Int
  TotalFiles : Int
  TotalLinesAdded : Int
  TotalLinesDeleted : Int
  Filter : Filter
  deriving DecidableEq, Repr

/-- The two uses of the `time` package in `stats.go`:
`time.Parse(time.RFC3339, date)` with the error ignored, followed by
`Format("2006-01")` resp. `Format("2006-01-02")`. -/
structure TimeLib where
  monthKey : String → String
  dayKey : String → String

/-! ## stats.go: the aggregator -/

/-- The first block of the loop body of `getMonthlyStats` / `getDailyStats`:
`if _, exists := table[key]; !exists { table[key] = make(...) }`. -/
def ensurePeriod (table : PeriodTable) (key : String) : PeriodTable :=
  if table.contains key then table else table.set key []

/-- The second block: `if _, exists := table[key][branch]; !exists
{ table[key][branch] = make(...) }`. The inner map is shared by reference in Go, so
the write shows in `table`. -/
def ensureBranch (table : PeriodTable) (key branch : String) : PeriodTable :=
  if (table.getD key).contains branch then table
  else table.set key ((table.getD key).set branch [])

/-- The third block: `if _, exists := table[key][branch][author]; !exists
{ table[key][branch][author] = AuthorStats{} }`. -/
def ensureAuthor (table : PeriodTable) (key branch author : String) : PeriodTable :=
  if ((table.getD key).getD branch).contains author then table
  else table.set key ((table.getD key).set branch
    (((table.getD key).getD branch).set author default))

/-- One round of the loop body of `getMonthlyStats` / `getDailyStats` for the period
key `key`, the commit and one of its branch labels. The three `if !exists` blocks
create the missing levels; then `stats` is read out of the table (a copy of the
struct) and updated. The function returns the table together with the local `stats`:
the source has no `table[key][branch][author] = stats`. -/
def periodStep (key : String) (commit : Commit) (table : PeriodTable) (branch : String) :
    PeriodTable × AuthorStats :=
  let author := commit.Author
  let table := ensurePeriod table key
  let table := ensureBranch table key branch
  let table := ensureAuthor table key branch author
  let stats := ((table.getD key).getD branch).getD author
  let stats := { stats with FilesChanged := stats.FilesChanged + commit.FilesChanged }
  let stats := { stats with LinesAdded := stats.LinesAdded + commit.LinesAdded }
  let stats := { stats with LinesDeleted := stats.LinesDeleted + commit.LinesDeleted }
  (table, stats)

/-- The function `getMonthlyStats`. -/
def getMonthlyStats (tl : TimeLib) (commits : List Commit) : PeriodTable :=
  commits.foldl (fun monthlyStats commit =>
    let monthKey := tl.monthKey commit.Date
    commit.Branches.foldl (fun table branch => (periodStep monthKey commit table branch).1)
      monthlyStats) []

/-- The function `getDailyStats`. -/
def getDailyStats (tl : TimeLib) (commits : List Commit) : PeriodTable :=
  commits.foldl (fun dailyStats commit =>
    let dayKey := tl.dayKey commit.Date
    commit.Branches.foldl (fun table branch => (periodStep dayKey commit table branch).1)
      dailyStats) []

/-- The inner loop of `getAuthorStats`: append to `stats.Branches` each branch label
of the commit that is not yet in it. -/
def addBranches (stats : AuthorStats) (branches : List String) : AuthorStats :=
  branches.foldl (fun stats branch =>
    if stats.Branches.contains branch then stats
    else { stats with Branches := stats.Branches ++ [branch] }) stats

/-- The loop body of `getAuthorStats` for one commit. It returns the table together
with the local `stats`: the source has no `authorStats[author] = stats`. -/
def authorStep (authorStats : GoMap AuthorStats) (commit : Commit) :
    GoMap AuthorStats × AuthorStats :=
  let author := commit.Author
  let authorStats :=
    if authorStats.contains author then authorStats
    else authorStats.set author { (default : AuthorStats) with Branches := [] }
  let stats := authorStats.getD author
  let stats := { stats with Commits := stats.Commits + 1 }
  let stats := { stats with FilesChanged := stats.FilesChanged + commit.FilesChanged }
  let stats := { stats with LinesAdded := stats.LinesAdded + commit.LinesAdded }
  let stats := { stats with LinesDeleted := stats.LinesDeleted + commit.LinesDeleted }
  let stats := addBranches stats commit.Branches
  (authorStats, stats)

/-- The function `getAuthorStats`. -/
def getAuthorStats (commits : List Commit) : GoMap AuthorStats :=
  commits.foldl (fun authorStats commit => (authorStep authorStats commit).1) []

/-- The loop body of `getBranchStats` for one commit and one of its branch labels. It
returns the table together with the local `stats`: the source has no
`branchStats[branch] = stats`. -/
def branchStep (commit : Commit) (branchStats : GoMap BranchStats) (branch : String) :
    GoMap BranchStats × BranchStats :=
  let branchStats :=
    if branchStats.contains branch then branchStats
    else branchStats.set branch { (default : BranchStats) with Authors := [] }
  let stats := branchStats.getD branch
  let stats := { stats with Commits := stats.Commits + 1 }
  let stats := { stats with FilesChanged := stats.FilesChanged + commit.FilesChanged }
  let stats := { stats with LinesAdded := stats.LinesAdded + commit.LinesAdded }
  let stats := { stats with LinesDeleted := stats.LinesDeleted + commit.LinesDeleted }
  let stats :=
    if stats.Authors.contains commit.Author then stats
    else { stats with Authors := stats.Authors ++ [commit.Author] }
  (branchStats, stats)

/-- The function `getBranchStats`. -/
def getBranchStats (commits : List Commit) : GoMap BranchStats :=
  commits.foldl (fun branchStats commit =>
    commit.Branches.foldl (fun table branch => (branchStep commit table branch).1)
      branchStats) []

/-- The call `sort.Strings`: ascending byte-wise (lexicographic) order. -/
def sortStrings (xs : List String) : List String := xs.insertionSort (· ≤ ·)

/-- The innermost loop of the four `prepare...Data...` functions: the total of `metric`
for one author and one period key over the branches, a branch map or an author entry
that does not exist adding nothing. -/
def periodTotal (metric : AuthorStats → Int) (table : PeriodTable)
    (branches : List String) (author period : String) : Int :=
  branches.foldl (fun total branch =>
    match (table.getD period).get? branch with
    | some periodData =>
      match periodData.get? author with
      | some authorData => total + metric authorData
      | none => total
    | none => total) 0

/-- The shared shape of `prepareMonthlyDataFiles`, `prepareMonthlyDataLines`,
`prepareDailyDataFiles` and `prepareDailyDataLines`, which differ only in the field
`metric` they add up: one series per author, one value per period key, each value the
sum over the branches of the buckets that exist. -/
def prepareSeries (metric : AuthorStats → Int) (table : PeriodTable)
    (authors branches periods : List String) : List ChartDataSeries :=
  authors.map fun author =>
    { Label := author
      Data := periods.map fun period => periodTotal metric table branches author period }

/-- The function `prepareMonthlyDataFiles`. -/
def prepareMonthlyDataFiles (monthlyStats : PeriodTable)
    (authors branches months : List String) : List ChartDataSeries :=
  prepareSeries AuthorStats.FilesChanged monthlyStats authors branches months

/-- The function `prepareMonthlyDataLines`. -/
def prepareMonthlyDataLines (monthlyStats : PeriodTable)
    (authors branches months : List String) : List ChartDataSeries :=
  prepareSeries AuthorStats.LinesAdded monthlyStats authors branches months

/-- The function `prepareDailyDataFiles`. -/
def prepareDailyDataFiles (dailyStats : PeriodTable)
    (authors branches days : List String) : List ChartDataSeries :=
  prepareSeries AuthorStats.FilesChanged dailyStats authors branches days

/-- The function `prepareDailyDataLines`. -/
def prepareDailyDataLines (dailyStats : PeriodTable)
    (authors branches days : List String) : List ChartDataSeries :=
  prepareSeries AuthorStats.LinesAdded dailyStats authors branches days

/-- The function `prepareChartData`. -/
def prepareChartData (monthlyStats : PeriodTable) (authorStats : GoMap AuthorStats)
    (branchStats : GoMap BranchStats) (dailyStats : PeriodTable) : ChartData :=
  let authors := sortStrings authorStats.keys
  let branches := sortStrings branchStats.keys
  let months := sortStrings monthlyStats.keys
  let days := sortStrings dailyStats.keys
  { Months := months
    Days := days
    Authors := authors
    Branches := branches
    MonthlyDataFiles := prepareMonthlyDataFiles monthlyStats authors branches months
    MonthlyDataLines := prepareMonthlyDataLines monthlyStats authors branches months
    DailyDataFiles := prepareDailyDataFiles dailyStats authors branches days
    DailyDataLines := prepareDailyDataLines dailyStats authors branches days }

/-- The value a Go `int` (64 bits, two's complement) takes for the arithmetic result
`x`: the representative of `x` modulo `2^64` in the range from `-2^63` to `2^63 - 1`. -/
def wrap64 (x : Int) : Int :=
  (x + 9223372036854775808) % 18446744073709551616 - 9223372036854775808

/-- The totals loop of `GenerateAnalysisResults`: the running
`(totalFiles, totalLinesAdded, totalLinesDeleted)`, each `+=` in 64-bit arithmetic. -/
def sumTotals (commits : List Commit) : Int × Int × Int :=
  commits.foldl (fun (acc : Int × Int × Int) commit =>
    (wrap64 (acc.1 + commit.FilesChanged), wrap64 (acc.2.1 + commit.LinesAdded),
      wrap64 (acc.2.2 + commit.LinesDeleted))) (0, 0, 0)

/-- The function `GenerateAnalysisResults`. Its two return values `(results, nil)` are
an `Except` that is always `ok`. -/
def GenerateAnalysisResults (tl : TimeLib) (commits : List Commit)
    (startDate endDate revisionRange cacheDir : String) : Except String AnalysisResults :=
  let monthlyStats := getMonthlyStats tl commits
  let authorStats := getAuthorStats commits
  let branchStats := getBranchStats commits
  let dailyStats := getDailyStats tl commits
  let chartData := prepareChartData monthlyStats authorStats branchStats dailyStats
  let totals := sumTotals commits
  let _ := cacheDir
  .ok
    { Commits := commits
      MonthlyStats := monthlyStats
      AuthorStats := authorStats
      BranchStats := branchStats
      DailyStats := dailyStats
      ChartData := chartData
      TotalCommits := commits.length
      TotalFiles := totals.1
      TotalLinesAdded := totals.2.1
      TotalLinesDeleted := totals.2.2
      Filter := { StartDate := startDate, EndDate := endDate, RevisionRange := revisionRange } }

/-- The two commits of the aggregation scenario: revision 100 by alice and revision 101
by bob, both on `trunk`. -/
def scenarioCommits : List Commit :=
  [ { Revision := "100", Author := "alice", Date := "2024-01-15T10:00:00Z",
      DateStr := "2024-01-15T10:00:00Z", BranchURL := "trunk", FilesChanged := 1,
      ChangedFiles := [⟨"/a.txt", "M", "trunk"⟩], Branches := ["trunk"],
      LinesAdded := 10, LinesDeleted := 2, FileDetails := [] },
    { Revision := "101", Author := "bob", Date := "2024-01-16T10:00:00Z",
      DateStr := "2024-01-16T10:00:00Z", BranchURL := "trunk", FilesChanged := 1,
      ChangedFiles := [⟨"/b.txt", "M", "trunk"⟩], Branches := ["trunk"],
      LinesAdded := 3, LinesDeleted := 1, FileDetails := [] } ]

/-! ## Go `strings` functions used by svn.go -/

/-- The predicate `unicode.IsSpace`, by code point. -/
def isSpace (c : Char) : Bool :=
  let n := c.toNat
  n == 9 || n == 10 || n == 11 || n == 12 || n == 13 || n == 32 || n == 0x85 || n == 0xA0 ||
    n == 0x1680 || (0x2000 ≤ n && n ≤ 0x200A) || n == 0x2028 || n == 0x2029 ||
    n == 0x202F || n == 0x205F || n == 0x3000

/-- The function `strings.TrimSpace`. -/
def TrimSpace (s : String) : String :=
  String.mk ((s.data.dropWhile isSpace).reverse.dropWhile isSpace).reverse

/-- The function `strings.HasPrefix`. -/
def HasPrefix (s pre : String) : Bool := pre.data.isPrefixOf s.data

/-- The function `strings.TrimPrefix`. -/
def TrimPrefix (s pre : String) : String :=
  if HasPrefix s pre then String.mk (s.data.drop pre.data.length) else s

/-- The scan of `strings.Split` for a non-empty separator: `skip` counts the characters
of a separator just found that are still to be passed over, `cur` is the current piece
in reverse. -/
def splitScan (sep : List Char) : List Char → Nat → List Char → List (List Char)
  | [], _, cur => [cur.reverse]
  | _ :: rest, skip + 1, cur => splitScan sep rest skip cur
  | c :: rest, 0, cur =>
    if sep.isPrefixOf (c :: rest) then cur.reverse :: splitScan sep rest (sep.length - 1) []
    else splitScan sep rest 0 (c :: cur)

/-- The function `strings.Split`: the pieces between the non-overlapping occurrences of
`sep`, found left to right; an empty `sep` splits after each character. -/
def Split (s sep : String) : List String :=
  if sep.data.isEmpty then s.data.map fun c => String.mk [c]
  else (splitScan sep.data s.data 0 []).map String.mk

/-- The function `strings.Join`. -/
def Join (parts : List String) (sep : String) : String :=
  String.mk (List.intercalate sep.data (parts.map String.data))

/-! ## svn.go: the diff parser -/

/-- The pattern literal of `ParseSVNDiff` (line 202). -/
def fileBlockPattern : String :=
  "---\\s+(.*?)\\s+\\d+.*?\\n\\+\\+\\+\\s+(.*?)\\s+\\d+.*?(?=\\n---|\\Z)"

/-- The characters Go's `regexp/syntax` accepts after a backslash: the assertions
`\A \b \B \z`, `\Q`, the classes `\d \s \w \D \S \W \p \P`, the escapes
`\a \f \n \r \t \v \x` and octal digits, and any ASCII punctuation. `\Z` is not among
them. -/
def escapeOK (c : Char) : Bool :=
  "AbBzQdswDSWpPafnrtvx01234567".data.contains c || (c.toNat < 128 && !c.isAlphanum)

/-- Where the scan of a pattern stands: in plain text, between `[` and `]`, right after
a backslash (with the place to return to), right after `(`, or in the text after
`(?`. -/
inductive ScanState where
  | normal
  | inClass
  | escape (inClass : Bool)
  | afterParen
  | perlFlags
  deriving DecidableEq, Repr

/-- The state after the character `c` read in plain text. -/
def ScanState.afterPlain (c : Char) : ScanState :=
  if c == '\\' then .escape false
  else if c == '[' then .inClass
  else if c == '(' then .afterParen
  else .normal

/-- The two checks of Go's `regexp/syntax` parser that decide `fileBlockPattern`, read
left to right as the parser does. A backslash must start a known escape. In the text
after `(?`, the flag letters `i m s U` and `-` are read up to a closing `:` or `)`, a
named group `(?P<` or `(?<` is taken as accepted, and any other character is refused:
look-around groups (`(?=`, `(?!`) are not part of Go's syntax. The result is the first
error found. An error reported here is one Go reports; other syntax errors (unbalanced
parentheses, bad repetitions) are not looked for. -/
def regexpSyntaxError : ScanState → List Char → Option String
  | .escape _, [] => some "trailing backslash at end of expression"
  | _, [] => none
  | .escape inClass, c :: rest =>
    if escapeOK c then regexpSyntaxError (if inClass then .inClass else .normal) rest
    else some "invalid escape sequence"
  | .inClass, c :: rest =>
    if c == '\\' then regexpSyntaxError (.escape true) rest
    else if c == ']' then regexpSyntaxError .normal rest
    else regexpSyntaxError .inClass rest
  | .afterParen, c :: rest =>
    if c == '?' then regexpSyntaxError .perlFlags rest
    else regexpSyntaxError (ScanState.afterPlain c) rest
  | .perlFlags, c :: rest =>
    if c == ':' || c == ')' || c == 'P' || c == '<' then regexpSyntaxError .normal rest
    else if c == 'i' || c == 'm' || c == 's' || c == 'U' || c == '-' then
      regexpSyntaxError .perlFlags rest
    else some "invalid or unsupported Perl syntax"
  | .normal, c :: rest => regexpSyntaxError (ScanState.afterPlain c) rest

/-- The matcher of the `regexp` package: `FindAllStringSubmatch pattern text` is
`regexp.MustCompile(pattern).FindAllStringSubmatch(text, -1)` for a pattern that
compiles: one list per match, holding the whole match and then the capture groups. -/
structure RegexpLib where
  FindAllStringSubmatch : String → String → List (List String)

/-- The call `regexp.MustCompile`: it panics (`Except.error`) with the parser's error
when the pattern does not compile, and else yields the compiled pattern. -/
def MustCompile (pattern : String) : Except String String :=
  match regexpSyntaxError .normal pattern.data with
  | some e => .error ("regexp: Compile: error parsing regexp: " ++ e)
  | none => .ok pattern

/-- The file path chosen for one match (lines 211 to 224), from the two capture
groups. -/
def blockFilePath (oldHeader newHeader : String) : String :=
  let oldFile := TrimSpace oldHeader
  let newFile := TrimSpace newHeader
  if HasPrefix oldFile "/" then TrimPrefix oldFile "/"
  else
    let parts := Split newFile "/"
    if parts.length > 1 then Join (parts.drop (parts.length - 2)) "/"
    else parts.getD (parts.length - 1) ""

/-- The line count of one match (lines 226 to 237): `(linesAdded, linesDeleted)` over
the lines of the matched text. -/
def countLines (fileContent : String) : Int × Int :=
  (Split fileContent "\n").foldl (fun (acc : Int × Int) line =>
    if HasPrefix line "+" && !HasPrefix line "+++" then (acc.1 + 1, acc.2)
    else if HasPrefix line "-" && !HasPrefix line "---" then (acc.1, acc.2 + 1)
    else acc) (0, 0)

/-- The loop of `ParseSVNDiff` over the matches (lines 206 to 248): the running
`(totalLinesAdded, totalLinesDeleted, fileDetails)`. -/
def parseMatches (found : List (List String)) : Int × Int × GoMap FileDetail :=
  found.foldl (fun (acc : Int × Int × GoMap FileDetail) m =>
    if m.length < 3 then acc
    else
      let filePath := blockFilePath (m.getD 1 "") (m.getD 2 "")
      let counts := countLines (m.getD 0 "")
      (acc.1 + counts.1, acc.2.1 + counts.2,
        acc.2.2.set filePath
          { LinesAdded := counts.1, LinesDeleted := counts.2, Cached := false, Author := "" }))
    (0, 0, [])

/-- The function `ParseSVNDiff`. `Except.error` is a panic: the function has no error
return. -/
def ParseSVNDiff (re : RegexpLib) (diffOutput : String) :
    Except String (Int × Int × GoMap FileDetail) :=
  match MustCompile fileBlockPattern with
  | .error e => .error e
  | .ok compiled => .ok (parseMatches (re.FindAllStringSubmatch compiled diffOutput))

/-! ## cache.go: the revision cache store -/

/-- The struct `RevisionFileCache`. -/
structure RevisionFileCache where
  Revision : String
  FilePath : String
  Hash : String
  Author : String
  LinesAdded : Int
  LinesDeleted : Int
  Timestamp : Int
  deriving DecidableEq, Repr

/-- The struct `RevisionSummaryCache`. -/
structure RevisionSummaryCache where
  Revision : String
  BranchURL : String
  TotalLinesAdded : Int
  TotalLinesDeleted : Int
  FileCount : Int
  FileList : List String
  Timestamp : Int
  deriving DecidableEq, Repr

/-- The struct `Cache`. -/
structure Cache where
  RevisionFile : GoMap RevisionFileCache
  RevisionSummary : GoMap RevisionSummaryCache
  deriving DecidableEq, Repr

/-- The struct `CacheData`: the value behind the package variable `cacheData`, once it
has been set by `LoadCache` or `getDefaultCache`, with both maps allocated. The
functions below take it as an argument and return the new value. -/
structure CacheData where
  Version : String
  Cache : Cache
  deriving DecidableEq, Repr

/-- The constant `CacheVersion`. -/
def CacheVersion : String := "1.1"

/-- The value built by `getDefaultCache`. -/
def getDefaultCache : CacheData :=
  { Version := CacheVersion, Cache := { RevisionFile := [], RevisionSummary := [] } }

/-- The function `GenerateFileCacheKey`. -/
def GenerateFileCacheKey (revision filePath : String) : String :=
  revision ++ "|" ++ filePath

/-- The function `GenerateRevisionCacheKey`. -/
def GenerateRevisionCacheKey (revision : String) : String := revision

/-- The function `UpdateRevisionFileCache`; `now` is `time.Now().Unix()`. -/
def UpdateRevisionFileCache (now : Int) (cacheData : CacheData)
    (revision filePath hash author : String) (linesAdded linesDeleted : Int) : CacheData :=
  let key := GenerateFileCacheKey revision filePath
  { cacheData with
    Cache := { cacheData.Cache with
      RevisionFile := cacheData.Cache.RevisionFile.set key
        { Revision := revision, FilePath := filePath, Hash := hash, Author := author,
          LinesAdded := linesAdded, LinesDeleted := linesDeleted, Timestamp := now } } }

/-- The function `UpdateRevisionSummaryCache`; `now` is `time.Now().Unix()`. -/
def UpdateRevisionSummaryCache (now : Int) (cacheData : CacheData)
    (revision branchURL : String) (totalLinesAdded totalLinesDeleted fileCount : Int)
    (fileList : List String) : CacheData :=
  let key := GenerateRevisionCacheKey revision
  { cacheData with
    Cache := { cacheData.Cache with
      RevisionSummary := cacheData.Cache.RevisionSummary.set key
        { Revision := revision, BranchURL := branchURL, TotalLinesAdded := totalLinesAdded,
          TotalLinesDeleted := totalLinesDeleted, FileCount := fileCount,
          FileList := fileList, Timestamp := now } } }

/-- The function `GetRevisionFileCache`: `some entry` is `(entry, true)` and `none` is
`(zero value, false)`. -/
def GetRevisionFileCache (cacheData : CacheData) (revision filePath : String) :
    Option RevisionFileCache :=
  cacheData.Cache.RevisionFile.get? (GenerateFileCacheKey revision filePath)

/-- The function `GetRevisionSummaryCache`: `some entry` is `(entry, true)` and `none`
is `(zero value, false)`. -/
def GetRevisionSummaryCache (cacheData : CacheData) (revision : String) :
    Option RevisionSummaryCache :=
  cacheData.Cache.RevisionSummary.get? (GenerateRevisionCacheKey revision)

/-! ## svn.go: diff retrieval through the cache -/

/-- The external `svn` client behind `GetSVNDiff` and `GetSVNFileContent`: the text
it prints, or the error of the failed command. Arguments in source order:
`branchURL revision username password` and
`branchURL revision filePath username password`. -/
structure SvnClient where
  GetSVNDiff : String → String → String → String → Except String String
  GetSVNFileContent : String → String → String → String → String → Except String String

/-- What `GetSVNDiffWithCache` needs from outside the repository. -/
structure Env where
  svn : SvnClient
  re : RegexpLib
  md5hex : String → String
  now : Int

/-- A call of the external client. -/
inductive ExternalCall where
  | diff (branchURL revision : String)
  | cat (branchURL revision filePath : String)
  deriving DecidableEq, Repr

/-- The four return values of `GetSVNDiffWithCache`; a nil map and a nil error are
`none`. -/
structure DiffReturn where
  totalLinesAdded : Int
  totalLinesDeleted : Int
  fileDetails : Option (GoMap FileDetail)
  err : Option String
  deriving DecidableEq, Repr

/-- The outcome of one call of `GetSVNDiffWithCache`: the store after the call, the
external calls made in order, the store handed to `SaveCache` if it was called, and the
return values (`Except.error` is a panic). -/
structure Run where
  cacheData : CacheData
  calls : List ExternalCall
  saved : Option CacheData
  result : Except String DiffReturn

/-- The loop of lines 264 to 276 over `summary.FileList`: the running
`(fileDetails, needRefresh)`. -/
def collectCached (cacheData : CacheData) (revision : String) (fileList : List String) :
    GoMap FileDetail × Bool :=
  fileList.foldl (fun (acc : GoMap FileDetail × Bool) filePath =>
    match GetRevisionFileCache cacheData revision filePath with
    | some fileCache =>
      (acc.1.set filePath
        { LinesAdded := fileCache.LinesAdded, LinesDeleted := fileCache.LinesDeleted,
          Cached := true, Author := fileCache.Author }, acc.2)
    | none => (acc.1, true)) ([], false)

/-- The first block of `GetSVNDiffWithCache` (lines 257 to 282): the values returned
from the cache, or `none` when control falls through to the fetch. The `return` of
line 280 lists three values; the fourth, the error, is nil. -/
def cachedResult (cacheData : CacheData) (revision : String) : Option DiffReturn :=
  match GetRevisionSummaryCache cacheData revision with
  | some summary =>
    let collected := collectCached cacheData revision summary.FileList
    if !collected.2 then
      some { totalLinesAdded := summary.TotalLinesAdded
             totalLinesDeleted := summary.TotalLinesDeleted
             fileDetails := some collected.1, err := none }
    else none
  | none => none

/-- The loop of lines 292 to 302 over the parsed files: the store and the external
calls so far. A failed content fetch is printed and the file is skipped. -/
def cacheParsedFiles (env : Env) (branchURL revision username password : String)
    (fileDetails : GoMap FileDetail) (cacheData : CacheData) :
    CacheData × List ExternalCall :=
  fileDetails.foldl (fun (acc : CacheData × List ExternalCall) entry =>
    let filePath := entry.1
    let detail := entry.2
    let calls := acc.2 ++ [ExternalCall.cat branchURL revision filePath]
    match env.svn.GetSVNFileContent branchURL revision filePath username password with
    | .error _ => (acc.1, calls)
    | .ok content =>
      (UpdateRevisionFileCache env.now acc.1 revision filePath (env.md5hex content)
        detail.Author detail.LinesAdded detail.LinesDeleted, calls)) (cacheData, [])

/-- Lines 292 to 315 of `GetSVNDiffWithCache`: what follows the call of `ParseSVNDiff`,
given its three results. The content of each parsed file is fetched and its entry
written, the summary is written, `SaveCache` is called, and the parsed values are
returned with a nil error. `calls` are the external calls made before. -/
def storeParsed (env : Env) (cacheData : CacheData)
    (branchURL revision username password : String) (calls : List ExternalCall)
    (totalLinesAdded totalLinesDeleted : Int) (fileDetails : GoMap FileDetail) : Run :=
  let stored := cacheParsedFiles env branchURL revision username password
    fileDetails cacheData
  let fileList := fileDetails.keys
  let cacheData := UpdateRevisionSummaryCache env.now stored.1 revision branchURL
    totalLinesAdded totalLinesDeleted fileDetails.length fileList
  { cacheData := cacheData, calls := calls ++ stored.2, saved := some cacheData
    result := .ok { totalLinesAdded := totalLinesAdded
                    totalLinesDeleted := totalLinesDeleted
                    fileDetails := some fileDetails, err := none } }

/-- The function `GetSVNDiffWithCache`, with the store passed in and out. The locals
`cacheData`, `revisionCacheKey` and `fileCacheKey` of the source are never read. -/
def GetSVNDiffWithCache (env : Env) (cacheData : CacheData)
    (branchURL revision username password cacheDir : String) : Run :=
  let _ := cacheDir
  match cachedResult cacheData revision with
  | some ret => { cacheData := cacheData, calls := [], saved := none, result := .ok ret }
  | none =>
    let calls := [ExternalCall.diff branchURL revision]
    match env.svn.GetSVNDiff branchURL revision username password with
    | .error err =>
      { cacheData := cacheData, calls := calls, saved := none
        result := .ok { totalLinesAdded := 0, totalLinesDeleted := 0,
                        fileDetails := none, err := some err } }
    | .ok diffOutput =>
      match ParseSVNDiff env.re diffOutput with
      | .error e => { cacheData := cacheData, calls := calls, saved := none, result := .error e }
      | .ok (totalLinesAdded, totalLinesDeleted, fileDetails) =>
        storeParsed env cacheData branchURL revision username password calls
          totalLinesAdded totalLinesDeleted fileDetails

/-! ## stats.go: branch labels -/

/-- The search of `strings.Contains` over the characters of the text: `sub` starts at
the current position or further on. -/
def containsFrom (sub : List Char) : List Char → Bool
  | [] => sub.isPrefixOf []
  | c :: rest => sub.isPrefixOf (c :: rest) || containsFrom sub rest

/-- The function `strings.Contains`. -/
def Contains (s sub : String) : Bool := containsFrom sub.data s.data

/-- The function `extractBranch`. `strings.Split` yields at least one piece, so the
test `len(parts) > 0` holds and `parts[0]` is returned. -/
def extractBranch (path : String) : String :=
  if Contains path "/src/main/" then
    let parts := Split path "/src/main/"
    if parts.length > 0 then parts.getD 0 "" else "trunk"
  else "trunk"

/-! ## stats.go: commits from log entries -/

/-- The struct `Path` of `svn.go`. -/
structure Path where
  Action : String
  Kind : String
  Text : String
  deriving DecidableEq, Repr

/-- The struct `LogEntry` of `svn.go`; `Time` stands for `time.Time`. -/
structure LogEntry (Time : Type) where
  Revision : String
  Author : String
  Date : Time
  Paths : List Path
  Message : String

/-- The inner loop of `ConvertLogEntriesToCommits` (lines 98 to 107) over the paths of an
entry: the running `(branches, changedFiles)`, each grown by `append`. -/
def convertPaths (paths : List Path) : List String × List ChangedFile :=
  paths.foldl (fun (acc : List String × List ChangedFile) path =>
    let branch := extractBranch path.Text
    (acc.1 ++ [branch],
      acc.2 ++ [{ Path := path.Text, Action := path.Action, Branch := branch }])) ([], [])

/-- Lines 109 to 116 of `ConvertLogEntriesToCommits`: the first branch label, by either
arm of the test on `/trunk`, or the zero value of `branchURL`. -/
def firstBranchURL (branches : List String) : String :=
  if branches.length > 0 then
    if HasPrefix (branches.getD 0 "") "/trunk" then branches.getD 0 ""
    else branches.getD 0 ""
  else ""

/-- The function `ConvertLogEntriesToCommits`; `formatRFC3339` is
`Time.Format(time.RFC3339)`. -/
def ConvertLogEntriesToCommits {Time : Type} (formatRFC3339 : Time → String)
    (entries : List (LogEntry Time)) : List Commit :=
  entries.foldl (fun commits entry =>
    let converted := convertPaths entry.Paths
    let branches := converted.1
    let changedFiles := converted.2
    let branchURL := firstBranchURL branches
    commits ++
      [{ Revision := entry.Revision
         Author := entry.Author
         Date := formatRFC3339 entry.Date
         DateStr := formatRFC3339 entry.Date
         BranchURL := branchURL
         FilesChanged := entry.Paths.length
         ChangedFiles := changedFiles
         Branches := branches
         LinesAdded := 0
         LinesDeleted := 0
         FileDetails := [] }]) []

/-! ## cache.go: loading the store -/

/-- What `LoadCache` finds on disk: whether `os.Stat(cacheDir)` reports that the
directory does not exist, the error of `os.MkdirAll` if it is called (`none` when it
succeeds), and the result of `os.ReadFile(cacheFile)`. -/
structure CacheDirState where
  dirAbsent : Bool
  mkdirError : Option String
  readFile : Except String String

/-- The outcome of `LoadCache`: the two return values (a nil pointer and a nil error
are `none`) and the package variable `cacheData` after the call. -/
structure LoadResult where
  returned : Option CacheData
  err : Option String
  installed : Option CacheData
  deriving DecidableEq, Repr

/-- Lines 61 to 78 of `LoadCache`: read the file and parse it. `unmarshal` is
`json.Unmarshal` into a `CacheData` (`none` when it reports an error). A read or parse
failure returns `getDefaultCache()`, which installs the fresh store. -/
def readCacheFile (unmarshal : String → Option CacheData) (fs : CacheDirState) : LoadResult :=
  match fs.readFile with
  | .error _ => { returned := some getDefaultCache, err := none, installed := some getDefaultCache }
  | .ok data =>
    match unmarshal data with
    | none => { returned := some getDefaultCache, err := none, installed := some getDefaultCache }
    | some cache => { returned := some cache, err := none, installed := some cache }

/-- The function `LoadCache`; `cacheData` is the package variable before the call
(`none` when it is nil). -/
def LoadCache (unmarshal : String → Option CacheData) (fs : CacheDirState)
    (cacheData : Option CacheData) : LoadResult :=
  if fs.dirAbsent then
    match fs.mkdirError with
    | some err => { returned := none, err := some err, installed := cacheData }
    | none => readCacheFile unmarshal fs
  else readCacheFile unmarshal fs

/-! ## api.go: the batch loops -/

/-- The body of the batch loop of `executeSingleBranchAnalysis` (lines 205 to 218) and
of `executeMultiBranchAnalysis` (lines 289 to 302) for one commit: the store after the
call of `GetSVNDiffWithCache`, and the loop variable `commit` at the end of the body.
`commit` is the copy made by `for i, commit := range commits`; on a failed call the
body `continue`s. A panic of the call ends the loop (`Except.error`). -/
def batchStep (env : Env) (username password : String) (cacheData : CacheData)
    (commit : Commit) : Except String (CacheData × Commit) :=
  let run := GetSVNDiffWithCache env cacheData commit.BranchURL commit.Revision
    username password "../cache"
  match run.result with
  | .error e => .error e
  | .ok ret =>
    match ret.err with
    | some _ => .ok (run.cacheData, commit)
    | none =>
      .ok (run.cacheData,
        { commit with
          LinesAdded := ret.totalLinesAdded
          LinesDeleted := ret.totalLinesDeleted
          FileDetails := ret.fileDetails.getD [] })

/-- The rounds of the batch loop: the store is threaded through; the loop variable at
the end of a round is dropped, as nothing assigns it to `commits[i]`. -/
def batchRounds (env : Env) (username password : String) :
    CacheData → List Commit → Except String CacheData
  | cacheData, [] => .ok cacheData
  | cacheData, commit :: rest =>
    match batchStep env username password cacheData commit with
    | .error e => .error e
    | .ok out => batchRounds env username password out.1 rest

/-- The batch loop: the store after it and the slice `commits` that is then handed to
`GenerateAnalysisResults`. -/
def batchLoop (env : Env) (username password : String) (cacheData : CacheData)
    (commits : List Commit) : Except String (CacheData × List Commit) :=
  match batchRounds env username password cacheData commits with
  | .error e => .error e
  | .ok cacheData => .ok (cacheData, commits)

/-! ## Inputs of the scenarios -/

/-- The diff text of the parser scenario: one block for `foo.txt` with two added lines
and one deleted line. -/
def fooDiff : String :=
  "--- /a/foo.txt\t(rev)\n+++ /b/foo.txt\t(rev)\n+line1\n-line2\n+line3\n"

/-- A diff text of two well-formed blocks that resolve to the same path `a.txt`, each
with one added line. -/
def twoBlockDiff : String :=
  "--- /a.txt\t(revision 1)\n+++ /a.txt\t(revision 2)\n+x\n" ++
  "--- /a.txt\t(revision 2)\n+++ /a.txt\t(revision 3)\n+y\n"

/-- The two blocks of `twoBlockDiff` as matches: the block text, then the old-file and
new-file header paths. -/
def twoBlockMatches : List (List String) :=
  [ ["--- /a.txt\t(revision 1)\n+++ /a.txt\t(revision 2)\n+x", "/a.txt", "/a.txt"],
    ["--- /a.txt\t(revision 2)\n+++ /a.txt\t(revision 3)\n+y", "/a.txt", "/a.txt"] ]

/-- An `svn` client that answers every diff request with `diffText` and every content
request with the empty text. -/
def stubClient (diffText : String) : SvnClient :=
  { GetSVNDiff := fun _ _ _ _ => .ok diffText
    GetSVNFileContent := fun _ _ _ _ _ => .ok "" }

/-- An `svn` client whose every call fails. -/
def failingClient : SvnClient :=
  { GetSVNDiff := fun _ _ _ _ => .error "svn: E170013"
    GetSVNFileContent := fun _ _ _ _ _ => .error "svn: E170013" }

/-- A store with a summary for revision 100 that lists `foo.txt`, and the file entry of
`foo.txt`. -/
def warmStore : CacheData :=
  { Version := CacheVersion
    Cache :=
      { RevisionFile := [("100|foo.txt", ⟨"100", "foo.txt", "d41d8", "alice", 2, 1, 0⟩)]
        RevisionSummary := [("100", ⟨"100", "http://svn/trunk", 2, 1, 1, ["foo.txt"], 0⟩)] } }

/-- The store `warmStore` after its file entry has been deleted: the summary is left
without the entry it lists. -/
def driftedStore : CacheData :=
  { warmStore with Cache := { warmStore.Cache with RevisionFile := [] } }

/-- Following the spec's words: the count of the lines of a block that begin with `+`
other than its `+++` header line (the second line of the block), and the count of the
lines that begin with `-` other than its `---` header line (the first line). -/
def specLineCounts (block : String) : Int × Int :=
  let lines := Split block "\n"
  (((lines.eraseIdx 1).filter fun l => HasPrefix l "+").length,
   ((lines.eraseIdx 0).filter fun l => HasPrefix l "-").length)

/-- A block for `a.txt` with the added content line `++i;` (shown as `+++i;`), the
deleted content line `--j;` (shown as `---j;`), the added line `x` and a context
line. -/
def signedBlock : String :=
  "--- /a.txt\t(revision 1)\n+++ /a.txt\t(revision 2)\n+++i;\n---j;\n+x\n y"

/-- A diff text cut off before the `+++` header of its only block. -/
def truncatedDiff : String := "--- /a.txt\t(revision 1)\n+x\n"

/-- An `svn` client that answers every diff request with `diffText` and fails every
content request. -/
def contentFailingClient (diffText : String) : SvnClient :=
  { GetSVNDiff := fun _ _ _ _ => .ok diffText
    GetSVNFileContent := fun _ _ _ _ _ => .error "svn: E200009" }

/-- An environment around a client: a matcher that finds nothing, a constant digest
and the clock reading 0. -/
def stubEnv (svn : SvnClient) : Env :=
  { svn := svn, re := ⟨fun _ _ => []⟩
    md5hex := fun _ => "d41d8cd98f00b204e9800998ecf8427e", now := 0 }

/-- A `TimeLib` for dates written as `YYYY-MM-DDThh:mm:ssZ`: the month key is the
first 7 characters of the date and the day key the first 10. -/
def prefixTime : TimeLib :=
  { monthKey := fun d => String.mk (d.data.take 7)
    dayKey := fun d => String.mk (d.data.take 10) }

/-- The commit of revision 100 as `ConvertLogEntriesToCommits` leaves it: zero line
counts and no file details. -/
def loggedCommit : Commit :=
  { Revision := "100", Author := "alice", Date := "2024-01-15T10:00:00Z",
    DateStr := "2024-01-15T10:00:00Z", BranchURL := "http://svn/trunk", FilesChanged := 1,
    ChangedFiles := [⟨"/foo.txt", "M", "trunk"⟩], Branches := ["trunk"],
    LinesAdded := 0, LinesDeleted := 0, FileDetails := [] }

/-- A block for `a.txt` whose only content line is a context line. -/
def contextOnlyDiff : String :=
  "--- /a.txt\t(revision 1)\n+++ /a.txt\t(revision 2)\n context"

/-- Two commits by `alice` on `trunk` whose lines added are the largest Go `int`,
`2^63 - 1`, and 1. -/
def overflowCommits : List Commit :=
  [ { Revision := "100", Author := "alice", Date := "2024-01-15T10:00:00Z",
      DateStr := "2024-01-15T10:00:00Z", BranchURL := "trunk", FilesChanged := 1,
      ChangedFiles := [⟨"/a.txt", "M", "trunk"⟩], Branches := ["trunk"],
      LinesAdded := 9223372036854775807, LinesDeleted := 0, FileDetails := [] },
    { Revision := "101", Author := "alice", Date := "2024-01-16T10:00:00Z",
      DateStr := "2024-01-16T10:00:00Z", BranchURL := "trunk", FilesChanged := 1,
      ChangedFiles := [⟨"/a.txt", "M", "trunk"⟩], Branches := ["trunk"],
      LinesAdded := 1, LinesDeleted := 0, FileDetails := [] } ]

/-! ## Lemmas on Go maps and on the loops -/

namespace GoMap
variable {V : Type}

theorem get?_set_self (m : GoMap V) (k : String) (v : V) : (m.set k v).get? k = some v := by
  induction m with
  | nil => simp [set, get?]
  | cons e rest ih =>
    obtain ⟨k0, v0⟩ := e
    by_cases h : k0 = k
    · simp [set, get?, h]
    · simp [set, get?, h, ih]

theorem get?_set_ne (m : GoMap V) {k k' : String} (v : V) (h : k ≠ k') :
    (m.set k v).get? k' = m.get? k' := by
  induction m with
  | nil => simp [set, get?, h]
  | cons e rest ih =>
    obtain ⟨k0, v0⟩ := e
    by_cases h0 : k0 = k
    · subst h0
      simp [set, get?, h]
    · by_cases h1 : k0 = k'
      · subst h1
        simp [set, get?, h0]
      · simp [set, get?, h0, h1, ih]

theorem get?_set (m : GoMap V) (k k' : String) (v : V) :
    (m.set k v).get? k' = if k = k' then some v else m.get? k' := by
  by_cases h : k = k'
  · subst h; simp [get?_set_self]
  · simp [h, get?_set_ne]

/-- Lookup after the idiom `if _, exists := m[k]; !exists { m[k] = z }`. -/
theorem get?_ensure (m : GoMap V) (k k' : String) (z : V) :
    (if m.contains k then m else m.set k z).get? k' =
      if k = k' then some ((m.get? k).getD z) else m.get? k' := by
  unfold contains
  cases hk : m.get? k with
  | none =>
    simp [get?_set]
  | some v =>
    by_cases h : k = k'
    · subst h; simp [hk]
    · simp [h]

end GoMap

namespace GoMap
variable {V : Type}

/-- Lookup after a run of the idiom `if _, exists := m[k]; !exists { m[k] = z }` over a
list of keys. -/
theorem get?_foldl_ensure (z : V) (ks : List String) (m : GoMap V) (k' : String) :
    (ks.foldl (fun t k => if t.contains k then t else t.set k z) m).get? k' =
      if k' ∈ ks then some ((m.get? k').getD z) else m.get? k' := by
  induction ks generalizing m with
  | nil => simp
  | cons k ks ih =>
    rw [List.foldl_cons, ih, get?_ensure]
    by_cases h : k = k'
    · subst h; simp
    · have h' : ¬ k' = k := fun e => h e.symm
      simp [h, h']

theorem getD_set [Inhabited V] (m : GoMap V) (k k' : String) (v : V) :
    (m.set k v).getD k' = if k = k' then v else m.getD k' := by
  unfold getD
  rw [get?_set]
  by_cases h : k = k' <;> simp [h]

theorem getD_of_get? [Inhabited V] {m : GoMap V} {k : String} {v : V}
    (h : m.get? k = some v) : m.getD k = v := by
  simp [getD, h]

theorem getD_of_get?_none [Inhabited V] {m : GoMap V} {k : String}
    (h : m.get? k = none) : m.getD k = default := by
  simp [getD, h]

end GoMap

theorem authorStep_fst (m : GoMap AuthorStats) (c : Commit) :
    (authorStep m c).1 = if m.contains c.Author then m else m.set c.Author ⟨0, 0, 0, 0, []⟩ := rfl

theorem branchStep_fst (c : Commit) (m : GoMap BranchStats) (b : String) :
    (branchStep c m b).1 = if m.contains b then m else m.set b ⟨0, 0, 0, 0, []⟩ := rfl

theorem ensurePeriod_getD (T : PeriodTable) (key k : String) :
    (ensurePeriod T key).getD k = T.getD k := by
  unfold ensurePeriod
  cases h : T.get? key with
  | some M => simp [GoMap.contains, h]
  | none =>
    simp only [GoMap.contains, h, Option.isSome_none, Bool.false_eq_true, if_false,
      GoMap.getD_set]
    by_cases hk : key = k
    · subst hk; simp [GoMap.getD_of_get?_none h]; rfl
    · simp [hk]

theorem ensureBranch_getD (T : PeriodTable) (key br k b : String) :
    ((ensureBranch T key br).getD k).getD b = (T.getD k).getD b := by
  unfold ensureBranch
  cases h : (T.getD key).get? br with
  | some M => simp [GoMap.contains, h]
  | none =>
    simp only [GoMap.contains, h, Option.isSome_none, Bool.false_eq_true, if_false,
      GoMap.getD_set]
    by_cases hk : key = k
    · subst hk
      simp only [if_true, GoMap.getD_set]
      by_cases hb : br = b
      · subst hb; simp [GoMap.getD_of_get?_none h]; rfl
      · simp [hb]
    · simp [hk]

theorem ensureAuthor_bucket? (T : PeriodTable) (key br au k b a : String) :
    (ensureAuthor T key br au).bucket? k b a =
      if key = k ∧ br = b ∧ au = a then some ((T.bucket? k b a).getD default)
      else T.bucket? k b a := by
  unfold ensureAuthor PeriodTable.bucket?
  cases h : ((T.getD key).getD br).get? au with
  | some v =>
    simp only [GoMap.contains, h, Option.isSome_some, if_true]
    by_cases hk : key = k ∧ br = b ∧ au = a
    · obtain ⟨h1, h2, h3⟩ := hk
      subst h1; subst h2; subst h3
      simp [h]
    · simp [hk]
  | none =>
    simp only [GoMap.contains, h, Option.isSome_none, Bool.false_eq_true, if_false,
      GoMap.getD_set]
    by_cases hk : key = k
    · subst hk
      simp only [if_true, GoMap.getD_set, true_and]
      by_cases hb : br = b
      · subst hb
        simp only [if_true, GoMap.get?_set, true_and]
        by_cases ha : au = a
        · subst ha; simp [h]
        · simp [ha]
      · simp [hb]
    · simp [hk]

theorem periodStep_bucket? (key : String) (c : Commit) (T : PeriodTable) (br k b a : String) :
    PeriodTable.bucket? (periodStep key c T br).1 k b a =
      if key = k ∧ br = b ∧ c.Author = a then some ((T.bucket? k b a).getD default)
      else T.bucket? k b a := by
  have h : (periodStep key c T br).1 =
      ensureAuthor (ensureBranch (ensurePeriod T key) key br) key br c.Author := rfl
  rw [h, ensureAuthor_bucket?]
  unfold PeriodTable.bucket?
  simp only [ensureBranch_getD, ensurePeriod_getD]

theorem periodInner_bucket? (key : String) (c : Commit) (brs : List String) (T : PeriodTable)
    (k b a : String) :
    PeriodTable.bucket? (brs.foldl (fun t br => (periodStep key c t br).1) T) k b a =
      if key = k ∧ b ∈ brs ∧ c.Author = a then some ((T.bucket? k b a).getD default)
      else T.bucket? k b a := by
  induction brs generalizing T with
  | nil => simp
  | cons br brs ih =>
    rw [List.foldl_cons, ih, periodStep_bucket?]
    by_cases h1 : key = k
    · by_cases h3 : c.Author = a
      · by_cases h2 : br = b
        · subst h2; simp [h1, h3]
        · have h2' : ¬ b = br := fun e => h2 e.symm
          simp [h1, h2, h2', h3]
      · simp [h3]
    · simp [h1]

theorem periodOuter_bucket? (keyOf : Commit → String) (commits : List Commit) (T : PeriodTable)
    (k b a : String) :
    PeriodTable.bucket? (commits.foldl (fun t c =>
        c.Branches.foldl (fun t br => (periodStep (keyOf c) c t br).1) t) T) k b a =
      if ∃ c ∈ commits, keyOf c = k ∧ b ∈ c.Branches ∧ c.Author = a
      then some ((T.bucket? k b a).getD default)
      else T.bucket? k b a := by
  induction commits generalizing T with
  | nil => simp
  | cons c cs ih =>
    rw [List.foldl_cons, ih, periodInner_bucket?]
    by_cases hc : keyOf c = k ∧ b ∈ c.Branches ∧ c.Author = a
    · have : ∃ c' ∈ c :: cs, keyOf c' = k ∧ b ∈ c'.Branches ∧ c'.Author = a :=
        ⟨c, List.mem_cons_self _ _, hc⟩
      simp only [if_pos hc, if_pos this, Option.getD_some]
      split <;> rfl
    · rw [if_neg hc]
      by_cases hcs : ∃ c' ∈ cs, keyOf c' = k ∧ b ∈ c'.Branches ∧ c'.Author = a
      · have : ∃ c' ∈ c :: cs, keyOf c' = k ∧ b ∈ c'.Branches ∧ c'.Author = a := by
          obtain ⟨c', hm, hp⟩ := hcs
          exact ⟨c', List.mem_cons_of_mem _ hm, hp⟩
        rw [if_pos hcs, if_pos this]
      · have : ¬ ∃ c' ∈ c :: cs, keyOf c' = k ∧ b ∈ c'.Branches ∧ c'.Author = a := by
          rintro ⟨c', hm, hp⟩
          rcases List.mem_cons.mp hm with rfl | hm
          · exact hc hp
          · exact hcs ⟨c', hm, hp⟩
        rw [if_neg hcs, if_neg this]

/-- Every bucket of the monthly table is the zero `AuthorStats`, and a bucket is present
exactly for the (month, branch, author) triples touched by a commit. -/
theorem getMonthlyStats_bucket? (tl : TimeLib) (commits : List Commit) (k b a : String) :
    (getMonthlyStats tl commits).bucket? k b a =
      if ∃ c ∈ commits, tl.monthKey c.Date = k ∧ b ∈ c.Branches ∧ c.Author = a
      then some ⟨0, 0, 0, 0, []⟩ else none := by
  have h := periodOuter_bucket? (fun c => tl.monthKey c.Date) commits [] k b a
  exact h

/-- Every bucket of the daily table is the zero `AuthorStats`, and a bucket is present
exactly for the (day, branch, author) triples touched by a commit. -/
theorem getDailyStats_bucket? (tl : TimeLib) (commits : List Commit) (k b a : String) :
    (getDailyStats tl commits).bucket? k b a =
      if ∃ c ∈ commits, tl.dayKey c.Date = k ∧ b ∈ c.Branches ∧ c.Author = a
      then some ⟨0, 0, 0, 0, []⟩ else none := by
  have h := periodOuter_bucket? (fun c => tl.dayKey c.Date) commits [] k b a
  exact h

/-- The flat author table holds, for every author of a commit, the entry created by the
`!exists` block and nothing else. -/
theorem getAuthorStats_get? (commits : List Commit) (a : String) :
    (getAuthorStats commits).get? a =
      if a ∈ commits.map Commit.Author then some ⟨0, 0, 0, 0, []⟩ else none := by
  have h := GoMap.get?_foldl_ensure (⟨0, 0, 0, 0, []⟩ : AuthorStats)
    (commits.map Commit.Author) [] a
  rw [List.foldl_map] at h
  exact h

theorem branchInner_get? (c : Commit) (brs : List String) (m : GoMap BranchStats) (b : String) :
    (brs.foldl (fun t br => (branchStep c t br).1) m).get? b =
      if b ∈ brs then some ((m.get? b).getD ⟨0, 0, 0, 0, []⟩) else m.get? b :=
  GoMap.get?_foldl_ensure (⟨0, 0, 0, 0, []⟩ : BranchStats) brs m b

theorem branchOuter_get? (commits : List Commit) (m : GoMap BranchStats) (b : String) :
    (commits.foldl (fun t c => c.Branches.foldl (fun t br => (branchStep c t br).1) t) m).get? b =
      if ∃ c ∈ commits, b ∈ c.Branches then some ((m.get? b).getD ⟨0, 0, 0, 0, []⟩)
      else m.get? b := by
  induction commits generalizing m with
  | nil => simp
  | cons c cs ih =>
    rw [List.foldl_cons, ih, branchInner_get?]
    by_cases hc : b ∈ c.Branches
    · have : ∃ c' ∈ c :: cs, b ∈ c'.Branches := ⟨c, List.mem_cons_self _ _, hc⟩
      simp only [if_pos hc, if_pos this, Option.getD_some]
      split <;> rfl
    · rw [if_neg hc]
      by_cases hcs : ∃ c' ∈ cs, b ∈ c'.Branches
      · have : ∃ c' ∈ c :: cs, b ∈ c'.Branches := by
          obtain ⟨c', hm, hp⟩ := hcs
          exact ⟨c', List.mem_cons_of_mem _ hm, hp⟩
        rw [if_pos hcs, if_pos this]
      · have : ¬ ∃ c' ∈ c :: cs, b ∈ c'.Branches := by
          rintro ⟨c', hm, hp⟩
          rcases List.mem_cons.mp hm with rfl | hm
          · exact hc hp
          · exact hcs ⟨c', hm, hp⟩
        rw [if_neg hcs, if_neg this]

/-- The flat branch table holds, for every branch label of a commit, the entry created
by the `!exists` block and nothing else. -/
theorem getBranchStats_get? (commits : List Commit) (b : String) :
    (getBranchStats commits).get? b =
      if ∃ c ∈ commits, b ∈ c.Branches then some ⟨0, 0, 0, 0, []⟩ else none :=
  branchOuter_get? commits [] b

theorem wrap64_wrap64_add (a b : Int) : wrap64 (wrap64 a + b) = wrap64 (a + b) := by
  unfold wrap64
  omega

theorem wrap64_of_inRange (a : Int) (h : -9223372036854775808 ≤ a ∧ a < 9223372036854775808) :
    wrap64 a = a := by
  unfold wrap64
  omega

theorem sumTotals_foldl (commits : List Commit) (x y z : Int) :
    commits.foldl (fun (acc : Int × Int × Int) commit =>
      (wrap64 (acc.1 + commit.FilesChanged), wrap64 (acc.2.1 + commit.LinesAdded),
        wrap64 (acc.2.2 + commit.LinesDeleted))) (wrap64 x, wrap64 y, wrap64 z) =
    (wrap64 (x + (commits.map Commit.FilesChanged).sum),
      wrap64 (y + (commits.map Commit.LinesAdded).sum),
      wrap64 (z + (commits.map Commit.LinesDeleted).sum)) := by
  induction commits generalizing x y z with
  | nil => simp
  | cons c cs ih =>
    rw [List.foldl_cons]
    simp only [wrap64_wrap64_add]
    rw [ih]
    simp [add_assoc]

theorem sumTotals_eq (commits : List Commit) :
    sumTotals commits = (wrap64 (commits.map Commit.FilesChanged).sum,
      wrap64 (commits.map Commit.LinesAdded).sum,
      wrap64 (commits.map Commit.LinesDeleted).sum) := by
  have h := sumTotals_foldl commits 0 0 0
  have h0 : wrap64 0 = 0 := by decide
  rw [h0] at h
  unfold sumTotals
  rw [h]
  simp

namespace GoMap
variable {V : Type}

theorem mem_keys_iff (m : GoMap V) (k : String) : k ∈ m.keys ↔ (m.get? k).isSome = true := by
  induction m with
  | nil => simp [keys, get?]
  | cons e rest ih =>
    obtain ⟨k0, v0⟩ := e
    have ih' : k ∈ List.map Prod.fst rest ↔ (get? rest k).isSome = true := ih
    by_cases h : k0 = k
    · subst h; simp [keys, get?]
    · have h' : ¬ k = k0 := fun e => h e.symm
      simp only [keys, List.map_cons, List.mem_cons, h', false_or, get?, h, if_false]
      exact ih'

theorem nodup_keys_set (m : GoMap V) (k : String) (v : V) (h : m.keys.Nodup) :
    (m.set k v).keys.Nodup := by
  induction m with
  | nil => simp [set, keys]
  | cons e rest ih =>
    obtain ⟨k0, v0⟩ := e
    have hn : k0 ∉ keys rest ∧ (keys rest).Nodup := by
      simpa [keys] using h
    by_cases hk : k0 = k
    · subst hk
      simpa [set, keys] using h
    · have h1 : k0 ∉ keys (set rest k v) := by
        rw [mem_keys_iff, get?_set_ne rest v (fun e => hk e.symm), ← mem_keys_iff]
        exact hn.1
      have h2 := ih hn.2
      simp only [set, hk, if_false]
      show (k0 :: keys (set rest k v)).Nodup
      exact List.nodup_cons.mpr ⟨h1, h2⟩

end GoMap

/-- The loop of `collectCached` when every listed path has a file entry: the flag is
left as it was, the keys stay distinct, and the map holds for each listed path the
`FileDetail` built from its file entry. -/
theorem collectCached_foldl (cacheData : CacheData) (revision : String) (fileList : List String)
    (acc : GoMap FileDetail × Bool)
    (hf : ∀ p ∈ fileList, (GetRevisionFileCache cacheData revision p).isSome = true) :
    let out := fileList.foldl (fun (acc : GoMap FileDetail × Bool) filePath =>
      match GetRevisionFileCache cacheData revision filePath with
      | some fileCache =>
        (acc.1.set filePath
          { LinesAdded := fileCache.LinesAdded, LinesDeleted := fileCache.LinesDeleted,
            Cached := true, Author := fileCache.Author }, acc.2)
      | none => (acc.1, true)) acc
    out.2 = acc.2 ∧ (acc.1.keys.Nodup → out.1.keys.Nodup) ∧
    ∀ q, out.1.get? q =
      if q ∈ fileList then
        (GetRevisionFileCache cacheData revision q).map fun e =>
          ({ LinesAdded := e.LinesAdded, LinesDeleted := e.LinesDeleted,
             Cached := true, Author := e.Author } : FileDetail)
      else acc.1.get? q := by
  induction fileList generalizing acc with
  | nil => simp
  | cons p ps ih =>
    have hp := hf p (List.mem_cons_self _ _)
    have hps : ∀ q ∈ ps, (GetRevisionFileCache cacheData revision q).isSome = true :=
      fun q hq => hf q (List.mem_cons_of_mem _ hq)
    obtain ⟨e, he⟩ := Option.isSome_iff_exists.mp hp
    simp only [List.foldl_cons, he]
    have := ih (acc.1.set p
      { LinesAdded := e.LinesAdded, LinesDeleted := e.LinesDeleted,
        Cached := true, Author := e.Author }, acc.2) hps
    simp only at this
    obtain ⟨h1, h2, h3⟩ := this
    refine ⟨h1, fun hn => h2 (GoMap.nodup_keys_set _ _ _ hn), fun q => ?_⟩
    rw [h3 q]
    by_cases hq : q ∈ ps
    · simp [hq]
    · by_cases hqp : p = q
      · subst hqp
        simp [hq, GoMap.get?_set_self, he]
      · have hqp' : ¬ q = p := fun e => hqp e.symm
        simp [hq, hqp', GoMap.get?_set_ne _ _ hqp]

theorem ParseSVNDiff_panics (re : RegexpLib) (diffOutput : String) :
    ParseSVNDiff re diffOutput =
      .error "regexp: Compile: error parsing regexp: invalid or unsupported Perl syntax" := rfl

/-! ## Claims -/

/-- C1 (code defect). `ParseSVNDiff` returns no totals for the two-block diff
`twoBlockDiff`: `regexp.MustCompile` panics on the pattern, whatever the matcher. And the
loop over the two blocks, which resolve to the same path `a.txt`, adds both blocks to
the totals (2 lines added) but keeps one map entry, that of the last block, so the
per-file sum of lines added is 1. -/
theorem ParseSVNDiff_twoBlockDiff :
    (∀ re : RegexpLib, ParseSVNDiff re twoBlockDiff =
      .error "regexp: Compile: error parsing regexp: invalid or unsupported Perl syntax") ∧
    parseMatches twoBlockMatches = (2, 0, [("a.txt", ⟨1, 0, false, ""⟩)]) ∧
    ((parseMatches twoBlockMatches).2.2.values.map FileDetail.LinesAdded).sum = 1 :=
  ⟨fun _ => rfl, by decide, by decide⟩

/-- C2 (code defect). On the two-commit scenario `GenerateAnalysisResults` returns
`TotalLinesAdded = 13`, but the entry of `alice` in the author table has
`LinesAdded = 0` and the entry of `trunk` in the branch table has `Commits = 0`: the
updated `stats` copies are never stored back into the tables. -/
theorem GenerateAnalysisResults_scenario (tl : TimeLib)
    (startDate endDate revisionRange cacheDir : String) :
    ∃ r, GenerateAnalysisResults tl scenarioCommits startDate endDate revisionRange cacheDir
        = .ok r ∧
      (r.AuthorStats.get? "alice").map AuthorStats.LinesAdded = some 0 ∧
      (r.BranchStats.get? "trunk").map BranchStats.Commits = some 0 ∧
      r.TotalLinesAdded = 13 := by
  refine ⟨_, rfl, ?_, ?_, ?_⟩
  · show ((getAuthorStats scenarioCommits).get? "alice").map AuthorStats.LinesAdded = some 0
    decide
  · show ((getBranchStats scenarioCommits).get? "trunk").map BranchStats.Commits = some 0
    decide
  · show (sumTotals scenarioCommits).2.1 = 13
    decide

/-- C3. When the store has a summary for the revision and a file entry for every path of
its file list, `GetSVNDiffWithCache` makes no external call, does not call `SaveCache`,
leaves the store as it was, and returns with a nil error the totals of the summary and
a per-file map whose keys are exactly the paths of the file list, each key once, the
entry of a path carrying the lines added, lines deleted and author of its file entry
with `Cached = true`. -/
theorem GetSVNDiffWithCache_cached (env : Env) (cacheData : CacheData)
    (branchURL revision username password cacheDir : String) (summary : RevisionSummaryCache)
    (hs : GetRevisionSummaryCache cacheData revision = some summary)
    (hf : ∀ p ∈ summary.FileList, (GetRevisionFileCache cacheData revision p).isSome = true) :
    ∃ fileDetails : GoMap FileDetail,
      GetSVNDiffWithCache env cacheData branchURL revision username password cacheDir =
        { cacheData := cacheData, calls := [], saved := none
          result := .ok { totalLinesAdded := summary.TotalLinesAdded
                          totalLinesDeleted := summary.TotalLinesDeleted
                          fileDetails := some fileDetails, err := none } } ∧
      fileDetails.keys.Nodup ∧
      (∀ p, p ∈ fileDetails.keys ↔ p ∈ summary.FileList) ∧
      (∀ p ∈ summary.FileList, ∃ e, GetRevisionFileCache cacheData revision p = some e ∧
        fileDetails.get? p = some ⟨e.LinesAdded, e.LinesDeleted, true, e.Author⟩) := by
  obtain ⟨h1, h2, h3⟩ := collectCached_foldl cacheData revision summary.FileList ([], false) hf
  have hc : cachedResult cacheData revision =
      some { totalLinesAdded := summary.TotalLinesAdded
             totalLinesDeleted := summary.TotalLinesDeleted
             fileDetails := some (collectCached cacheData revision summary.FileList).1
             err := none } := by
    unfold cachedResult
    rw [hs]
    have : (collectCached cacheData revision summary.FileList).2 = false := h1
    simp [this]
  refine ⟨(collectCached cacheData revision summary.FileList).1, ?_, ?_, ?_, ?_⟩
  · unfold GetSVNDiffWithCache
    rw [hc]
  · exact h2 List.nodup_nil
  · intro p
    rw [GoMap.mem_keys_iff]
    have := h3 p
    simp only [GoMap.get?] at this
    show ((collectCached cacheData revision summary.FileList).1.get? p).isSome = true ↔ _
    unfold collectCached
    rw [this]
    by_cases hp : p ∈ summary.FileList
    · simp [hp, hf p hp]
    · simp [hp]
  · intro p hp
    obtain ⟨e, he⟩ := Option.isSome_iff_exists.mp (hf p hp)
    refine ⟨e, he, ?_⟩
    have := h3 p
    unfold collectCached
    rw [this]
    simp [hp, he]

/-- Witness of `GetSVNDiffWithCache_cached`: the store `warmStore` and revision 100. -/
theorem GetSVNDiffWithCache_cached_witness :
    ∃ fileDetails : GoMap FileDetail,
      GetSVNDiffWithCache ⟨failingClient, ⟨fun _ _ => []⟩, id, 0⟩ warmStore
          "http://svn/trunk" "100" "" "" "../cache" =
        { cacheData := warmStore, calls := [], saved := none
          result := .ok { totalLinesAdded := 2, totalLinesDeleted := 1
                          fileDetails := some fileDetails, err := none } } ∧
      fileDetails.keys.Nodup ∧
      (∀ p, p ∈ fileDetails.keys ↔ p ∈ ["foo.txt"]) ∧
      (∀ p ∈ ["foo.txt"], ∃ e, GetRevisionFileCache warmStore "100" p = some e ∧
        fileDetails.get? p = some ⟨e.LinesAdded, e.LinesDeleted, true, e.Author⟩) :=
  GetSVNDiffWithCache_cached ⟨failingClient, ⟨fun _ _ => []⟩, id, 0⟩ warmStore
    "http://svn/trunk" "100" "" "" "../cache"
    ⟨"100", "http://svn/trunk", 2, 1, 1, ["foo.txt"], 0⟩ (by decide) (by decide)

/-- C4 (code defect). On the store `driftedStore`, whose summary for revision 100 lists
a path without file entry, and a client that answers the diff request with `fooDiff`,
`GetSVNDiffWithCache` makes one external call, the diff fetch, and then panics in
`ParseSVNDiff`: it returns no totals and no per-file map, and the store is as before. -/
theorem GetSVNDiffWithCache_drifted (re : RegexpLib) (md5hex : String → String) (now : Int) :
    GetSVNDiffWithCache ⟨stubClient fooDiff, re, md5hex, now⟩ driftedStore
        "http://svn/trunk" "100" "" "" "../cache" =
      { cacheData := driftedStore, calls := [ExternalCall.diff "http://svn/trunk" "100"]
        saved := none
        result := .error
          "regexp: Compile: error parsing regexp: invalid or unsupported Perl syntax" } := by
  rfl

/-- A call of `GetSVNDiffWithCache` that returns with a nil error is, in this code, a
call served from the cache (the fetch ends in the error of the diff request or in the
panic of `ParseSVNDiff`); a second call with the same arguments on the store it leaves
then returns the same values and makes no external call. -/
theorem GetSVNDiffWithCache_second_call (env env2 : Env) (cacheData : CacheData)
    (branchURL revision username password cacheDir : String) (ret : DiffReturn)
    (h : (GetSVNDiffWithCache env cacheData branchURL revision username password
      cacheDir).result = .ok ret)
    (hok : ret.err = none) :
    (GetSVNDiffWithCache env2
      (GetSVNDiffWithCache env cacheData branchURL revision username password
        cacheDir).cacheData
      branchURL revision username password cacheDir).result = .ok ret ∧
    (GetSVNDiffWithCache env2
      (GetSVNDiffWithCache env cacheData branchURL revision username password
        cacheDir).cacheData
      branchURL revision username password cacheDir).calls = [] := by
  unfold GetSVNDiffWithCache at h ⊢
  cases hc : cachedResult cacheData revision with
  | some r =>
    simp only [hc] at h ⊢
    exact ⟨h, trivial⟩
  | none =>
    simp only [hc] at h
    cases hd : env.svn.GetSVNDiff branchURL revision username password with
    | error e =>
      simp only [hd] at h
      injection h with h
      subst h
      simp at hok
    | ok d =>
      simp only [hd, ParseSVNDiff_panics] at h
      cases h

/-- The lemma `GetSVNDiffWithCache_second_call` on the store `warmStore` and
revision 100. -/
theorem GetSVNDiffWithCache_second_call_witness :
    (GetSVNDiffWithCache ⟨failingClient, ⟨fun _ _ => []⟩, id, 0⟩
      (GetSVNDiffWithCache ⟨stubClient fooDiff, ⟨fun _ _ => []⟩, id, 0⟩ warmStore
        "http://svn/trunk" "100" "" "" "../cache").cacheData
      "http://svn/trunk" "100" "" "" "../cache").result =
        .ok ⟨2, 1, some [("foo.txt", ⟨2, 1, true, "alice"⟩)], none⟩ ∧
    (GetSVNDiffWithCache ⟨failingClient, ⟨fun _ _ => []⟩, id, 0⟩
      (GetSVNDiffWithCache ⟨stubClient fooDiff, ⟨fun _ _ => []⟩, id, 0⟩ warmStore
        "http://svn/trunk" "100" "" "" "../cache").cacheData
      "http://svn/trunk" "100" "" "" "../cache").calls = [] :=
  GetSVNDiffWithCache_second_call ⟨stubClient fooDiff, ⟨fun _ _ => []⟩, id, 0⟩
    ⟨failingClient, ⟨fun _ _ => []⟩, id, 0⟩ warmStore "http://svn/trunk" "100" "" ""
    "../cache" ⟨2, 1, some [("foo.txt", ⟨2, 1, true, "alice"⟩)], none⟩ (by rfl) rfl

/-- C6 (as stated, refuted). For the two commits of `overflowCommits`, whose lines
added are `2^63 - 1` and 1, `GenerateAnalysisResults` returns
`TotalLinesAdded = -2^63`, while the sum of `LinesAdded` over the commits is `2^63`. -/
theorem GenerateAnalysisResults_overflow :
    ∃ r, GenerateAnalysisResults prefixTime overflowCommits "" "" "" "../cache" = .ok r ∧
      r.TotalLinesAdded = -9223372036854775808 ∧
      (overflowCommits.map Commit.LinesAdded).sum = 9223372036854775808 := by
  refine ⟨_, rfl, ?_, ?_⟩
  · show (sumTotals overflowCommits).2.1 = -9223372036854775808
    decide
  · decide

/-- C6 (amended). For every commit list, `GenerateAnalysisResults` returns
`TotalLinesAdded`, `TotalLinesDeleted` and `TotalFiles` equal to the sums of
`LinesAdded`, `LinesDeleted` and `FilesChanged` over the commits of the list, each
commit entering once whatever its branch labels, taken in 64-bit arithmetic: each total
is the sum wrapped to the range of a Go `int`, hence the sum itself when the sum lies
between `-2^63` and `2^63 - 1`; and `TotalCommits` is the length of the list. -/
theorem GenerateAnalysisResults_totals (tl : TimeLib) (commits : List Commit)
    (startDate endDate revisionRange cacheDir : String) :
    ∃ r, GenerateAnalysisResults tl commits startDate endDate revisionRange cacheDir = .ok r ∧
      r.TotalLinesAdded = wrap64 (commits.map Commit.LinesAdded).sum ∧
      r.TotalLinesDeleted = wrap64 (commits.map Commit.LinesDeleted).sum ∧
      r.TotalFiles = wrap64 (commits.map Commit.FilesChanged).sum ∧
      r.TotalCommits = commits.length ∧
      ((-9223372036854775808 ≤ (commits.map Commit.LinesAdded).sum ∧
          (commits.map Commit.LinesAdded).sum < 9223372036854775808) →
        r.TotalLinesAdded = (commits.map Commit.LinesAdded).sum) ∧
      ((-9223372036854775808 ≤ (commits.map Commit.LinesDeleted).sum ∧
          (commits.map Commit.LinesDeleted).sum < 9223372036854775808) →
        r.TotalLinesDeleted = (commits.map Commit.LinesDeleted).sum) ∧
      ((-9223372036854775808 ≤ (commits.map Commit.FilesChanged).sum ∧
          (commits.map Commit.FilesChanged).sum < 9223372036854775808) →
        r.TotalFiles = (commits.map Commit.FilesChanged).sum) := by
  have hA : (sumTotals commits).2.1 = wrap64 (commits.map Commit.LinesAdded).sum := by
    rw [sumTotals_eq]
  have hD : (sumTotals commits).2.2 = wrap64 (commits.map Commit.LinesDeleted).sum := by
    rw [sumTotals_eq]
  have hF : (sumTotals commits).1 = wrap64 (commits.map Commit.FilesChanged).sum := by
    rw [sumTotals_eq]
  refine ⟨_, rfl, hA, hD, hF, rfl, fun h => ?_, fun h => ?_, fun h => ?_⟩
  · exact hA.trans (wrap64_of_inRange _ h)
  · exact hD.trans (wrap64_of_inRange _ h)
  · exact hF.trans (wrap64_of_inRange _ h)

/-- Witness of `GenerateAnalysisResults_totals`: on the two-commit scenario the sums
13, 3 and 2 lie in the range of a Go `int`, and the totals are 13 lines added, 3 lines
deleted, 2 files and 2 commits. -/
theorem GenerateAnalysisResults_totals_witness :
    ∃ r, GenerateAnalysisResults prefixTime scenarioCommits "" "" "" "../cache" = .ok r ∧
      r.TotalLinesAdded = 13 ∧ r.TotalLinesDeleted = 3 ∧ r.TotalFiles = 2 ∧
      r.TotalCommits = 2 := by
  obtain ⟨r, hr, _, _, _, hc, hA, hD, hF⟩ :=
    GenerateAnalysisResults_totals prefixTime scenarioCommits "" "" "" "../cache"
  exact ⟨r, hr, hA (by decide), hD (by decide), hF (by decide), hc⟩

/-- C7 (code defect). `ParseSVNDiff` applied to the scenario text `fooDiff` panics in
`regexp.MustCompile`, whatever the matcher: it returns no map and no totals. And the
loop, given the block with its two header paths, records it under the key `a/foo.txt`
(the old-file path less its leading slash), not `foo.txt`, with 2 lines added and 1
deleted. -/
theorem ParseSVNDiff_fooDiff :
    (∀ re : RegexpLib, ParseSVNDiff re fooDiff =
      .error "regexp: Compile: error parsing regexp: invalid or unsupported Perl syntax") ∧
    parseMatches [[fooDiff, "/a/foo.txt", "/b/foo.txt"]] =
      (2, 1, [("a/foo.txt", ⟨2, 1, false, ""⟩)]) :=
  ⟨fun _ => rfl, by decide⟩

/-- C8 (code defect). On the two-commit scenario, `alice` has one commit with 1 file
changed, 10 lines added and 2 deleted, yet her entry in the table of `getAuthorStats`
has `Commits`, `FilesChanged`, `LinesAdded` and `LinesDeleted` all 0 and no branch. -/
theorem getAuthorStats_scenario :
    (getAuthorStats scenarioCommits).get? "alice" = some ⟨0, 0, 0, 0, []⟩ ∧
    (scenarioCommits.filter fun c => c.Author == "alice").length = 1 ∧
    ((scenarioCommits.filter fun c => c.Author == "alice").map Commit.LinesAdded).sum = 10 := by
  decide

/-- C9 (code defect). On the two-commit scenario, both commits touch `trunk`, one by
`alice` and one by `bob`, yet the entry of `trunk` in the table of `getBranchStats` has
`Commits = 0` and an empty `Authors` list. -/
theorem getBranchStats_scenario :
    (getBranchStats scenarioCommits).get? "trunk" = some ⟨0, 0, 0, 0, []⟩ ∧
    (scenarioCommits.filter fun c => c.Branches.contains "trunk").length = 2 ∧
    (scenarioCommits.filter fun c => c.Branches.contains "trunk").map Commit.Author
      = ["alice", "bob"] := by
  decide

/-- C10 (code defect). On the two-commit scenario, whatever the formatting of dates, the
monthly bucket and the daily bucket of (`alice`'s commit date, `trunk`, `alice`) exist
and hold `FilesChanged = 0`, `LinesAdded = 0`, `LinesDeleted = 0`, although the commit
that touches them has 10 lines added. -/
theorem periodStats_scenario (tl : TimeLib) :
    (getMonthlyStats tl scenarioCommits).bucket? (tl.monthKey "2024-01-15T10:00:00Z")
      "trunk" "alice" = some ⟨0, 0, 0, 0, []⟩ ∧
    (getDailyStats tl scenarioCommits).bucket? (tl.dayKey "2024-01-15T10:00:00Z")
      "trunk" "alice" = some ⟨0, 0, 0, 0, []⟩ ∧
    (scenarioCommits.map Commit.LinesAdded).head? = some 10 := by
  refine ⟨?_, ?_, by decide⟩
  · rw [getMonthlyStats_bucket?, if_pos]
    exact ⟨_, List.mem_cons_self _ _, rfl, by decide, rfl⟩
  · rw [getDailyStats_bucket?, if_pos]
    exact ⟨_, List.mem_cons_self _ _, rfl, by decide, rfl⟩

/-! ## Lemmas on the chart data -/

namespace GoMap
variable {V : Type}

theorem mem_keys_set (m : GoMap V) (key k : String) (v : V) :
    k ∈ (m.set key v).keys ↔ k = key ∨ k ∈ m.keys := by
  rw [mem_keys_iff, mem_keys_iff, get?_set]
  by_cases h : key = k
  · subst h; simp
  · have h' : ¬ k = key := fun e => h e.symm
    simp [h, h']

theorem nodup_keys_foldl_ensure (z : V) (ks : List String) (m : GoMap V)
    (h : m.keys.Nodup) :
    (ks.foldl (fun t k => if t.contains k then t else t.set k z) m).keys.Nodup := by
  induction ks generalizing m with
  | nil => simpa using h
  | cons k ks ih =>
    rw [List.foldl_cons]
    apply ih
    split
    · exact h
    · exact nodup_keys_set _ _ _ h

end GoMap

theorem getAuthorStats_keys (commits : List Commit) :
    (getAuthorStats commits).keys.Nodup ∧
    ∀ a, a ∈ (getAuthorStats commits).keys ↔ ∃ c ∈ commits, c.Author = a := by
  constructor
  · have h := GoMap.nodup_keys_foldl_ensure (⟨0, 0, 0, 0, []⟩ : AuthorStats)
      (commits.map Commit.Author) [] List.nodup_nil
    rw [List.foldl_map] at h
    exact h
  · intro a
    rw [GoMap.mem_keys_iff, getAuthorStats_get?]
    by_cases h : a ∈ commits.map Commit.Author
    · simp only [if_pos h, Option.isSome_some, true_iff]
      obtain ⟨c, hc, rfl⟩ := List.mem_map.mp h
      exact ⟨c, hc, rfl⟩
    · simp only [if_neg h, Option.isSome_none, Bool.false_eq_true, false_iff]
      rintro ⟨c, hc, rfl⟩
      exact h (List.mem_map.mpr ⟨c, hc, rfl⟩)

theorem getBranchStats_keys (commits : List Commit) :
    (getBranchStats commits).keys.Nodup ∧
    ∀ b, b ∈ (getBranchStats commits).keys ↔ ∃ c ∈ commits, b ∈ c.Branches := by
  constructor
  · unfold getBranchStats
    suffices h : ∀ (m : GoMap BranchStats), m.keys.Nodup →
        (commits.foldl (fun t c =>
          c.Branches.foldl (fun t br => (branchStep c t br).1) t) m).keys.Nodup from
      h [] List.nodup_nil
    induction commits with
    | nil => intro m hm; simpa using hm
    | cons c cs ih =>
      intro m hm
      rw [List.foldl_cons]
      apply ih
      exact GoMap.nodup_keys_foldl_ensure (⟨0, 0, 0, 0, []⟩ : BranchStats) c.Branches m hm
  · intro b
    rw [GoMap.mem_keys_iff, getBranchStats_get?]
    by_cases h : ∃ c ∈ commits, b ∈ c.Branches
    · simp [if_pos h, h]
    · simp [if_neg h, h]

theorem ensurePeriod_keys (T : PeriodTable) (key k : String) :
    k ∈ (ensurePeriod T key).keys ↔ k = key ∨ k ∈ T.keys := by
  unfold ensurePeriod
  by_cases h : T.contains key = true
  · rw [if_pos h]
    have hk : key ∈ T.keys := (GoMap.mem_keys_iff T key).mpr h
    constructor
    · exact fun h' => Or.inr h'
    · rintro (rfl | h')
      · exact hk
      · exact h'
  · rw [if_neg h, GoMap.mem_keys_set]

theorem ensureBranch_keys (T : PeriodTable) (key br k : String) (hk : key ∈ T.keys) :
    k ∈ (ensureBranch T key br).keys ↔ k ∈ T.keys := by
  unfold ensureBranch
  split
  · rfl
  · rw [GoMap.mem_keys_set]
    constructor
    · rintro (rfl | h')
      · exact hk
      · exact h'
    · exact fun h' => Or.inr h'

theorem ensureAuthor_keys (T : PeriodTable) (key br au k : String) (hk : key ∈ T.keys) :
    k ∈ (ensureAuthor T key br au).keys ↔ k ∈ T.keys := by
  unfold ensureAuthor
  split
  · rfl
  · rw [GoMap.mem_keys_set]
    constructor
    · rintro (rfl | h')
      · exact hk
      · exact h'
    · exact fun h' => Or.inr h'

theorem ensurePeriod_nodup (T : PeriodTable) (key : String) (h : T.keys.Nodup) :
    (ensurePeriod T key).keys.Nodup := by
  unfold ensurePeriod
  split
  · exact h
  · exact GoMap.nodup_keys_set _ _ _ h

theorem ensureBranch_nodup (T : PeriodTable) (key br : String) (h : T.keys.Nodup) :
    (ensureBranch T key br).keys.Nodup := by
  unfold ensureBranch
  split
  · exact h
  · exact GoMap.nodup_keys_set _ _ _ h

theorem ensureAuthor_nodup (T : PeriodTable) (key br au : String) (h : T.keys.Nodup) :
    (ensureAuthor T key br au).keys.Nodup := by
  unfold ensureAuthor
  split
  · exact h
  · exact GoMap.nodup_keys_set _ _ _ h

theorem periodStep_keys (key : String) (c : Commit) (T : PeriodTable) (br k : String) :
    k ∈ (periodStep key c T br).1.keys ↔ k = key ∨ k ∈ T.keys := by
  have h : (periodStep key c T br).1 =
      ensureAuthor (ensureBranch (ensurePeriod T key) key br) key br c.Author := rfl
  have h1 : key ∈ (ensurePeriod T key).keys := (ensurePeriod_keys T key key).mpr (Or.inl rfl)
  have h2 : key ∈ (ensureBranch (ensurePeriod T key) key br).keys :=
    (ensureBranch_keys _ key br key h1).mpr h1
  rw [h, ensureAuthor_keys _ key br c.Author k h2, ensureBranch_keys _ key br k h1,
    ensurePeriod_keys]

theorem periodStep_nodup (key : String) (c : Commit) (T : PeriodTable) (br : String)
    (h : T.keys.Nodup) : (periodStep key c T br).1.keys.Nodup :=
  ensureAuthor_nodup _ _ _ _ (ensureBranch_nodup _ _ _ (ensurePeriod_nodup _ _ h))

theorem periodInner_keys (key : String) (c : Commit) (brs : List String) (T : PeriodTable)
    (k : String) :
    k ∈ (brs.foldl (fun t br => (periodStep key c t br).1) T).keys ↔
      (k = key ∧ brs ≠ []) ∨ k ∈ T.keys := by
  induction brs generalizing T with
  | nil => simp
  | cons br brs ih =>
    rw [List.foldl_cons, ih, periodStep_keys]
    by_cases hb : brs = []
    · simp [hb]
    · simp only [ne_eq, hb, not_false_eq_true, and_true, List.cons_ne_nil]
      tauto

theorem periodInner_nodup (key : String) (c : Commit) (brs : List String) (T : PeriodTable)
    (h : T.keys.Nodup) :
    (brs.foldl (fun t br => (periodStep key c t br).1) T).keys.Nodup := by
  induction brs generalizing T with
  | nil => simpa using h
  | cons br brs ih =>
    rw [List.foldl_cons]
    exact ih _ (periodStep_nodup key c T br h)

theorem periodOuter_keys (keyOf : Commit → String) (commits : List Commit) (T : PeriodTable)
    (k : String) :
    k ∈ (commits.foldl (fun t c =>
        c.Branches.foldl (fun t br => (periodStep (keyOf c) c t br).1) t) T).keys ↔
      (∃ c ∈ commits, c.Branches ≠ [] ∧ keyOf c = k) ∨ k ∈ T.keys := by
  induction commits generalizing T with
  | nil => simp
  | cons c cs ih =>
    rw [List.foldl_cons, ih, periodInner_keys]
    constructor
    · rintro (⟨c', hc', hp⟩ | ⟨rfl, hb⟩ | h)
      · exact Or.inl ⟨c', List.mem_cons_of_mem _ hc', hp⟩
      · exact Or.inl ⟨c, List.mem_cons_self _ _, hb, rfl⟩
      · exact Or.inr h
    · rintro (⟨c', hc', hb, hk⟩ | h)
      · rcases List.mem_cons.mp hc' with rfl | hc'
        · exact Or.inr (Or.inl ⟨hk.symm, hb⟩)
        · exact Or.inl ⟨c', hc', hb, hk⟩
      · exact Or.inr (Or.inr h)

theorem periodOuter_nodup (keyOf : Commit → String) (commits : List Commit) (T : PeriodTable)
    (h : T.keys.Nodup) :
    (commits.foldl (fun t c =>
        c.Branches.foldl (fun t br => (periodStep (keyOf c) c t br).1) t) T).keys.Nodup := by
  induction commits generalizing T with
  | nil => simpa using h
  | cons c cs ih =>
    rw [List.foldl_cons]
    exact ih _ (periodInner_nodup _ c c.Branches T h)

theorem getMonthlyStats_keys (tl : TimeLib) (commits : List Commit) :
    (getMonthlyStats tl commits).keys.Nodup ∧
    ∀ k, k ∈ (getMonthlyStats tl commits).keys ↔
      ∃ c ∈ commits, c.Branches ≠ [] ∧ tl.monthKey c.Date = k := by
  refine ⟨periodOuter_nodup (fun c => tl.monthKey c.Date) commits [] List.nodup_nil,
    fun k => ?_⟩
  have h := periodOuter_keys (fun c => tl.monthKey c.Date) commits [] k
  simpa [GoMap.keys] using h

theorem getDailyStats_keys (tl : TimeLib) (commits : List Commit) :
    (getDailyStats tl commits).keys.Nodup ∧
    ∀ k, k ∈ (getDailyStats tl commits).keys ↔
      ∃ c ∈ commits, c.Branches ≠ [] ∧ tl.dayKey c.Date = k := by
  refine ⟨periodOuter_nodup (fun c => tl.dayKey c.Date) commits [] List.nodup_nil,
    fun k => ?_⟩
  have h := periodOuter_keys (fun c => tl.dayKey c.Date) commits [] k
  simpa [GoMap.keys] using h

theorem sortStrings_sorted (xs : List String) (h : xs.Nodup) :
    (sortStrings xs).Sorted (· < ·) := by
  unfold sortStrings
  exact (List.sorted_insertionSort (· ≤ ·) xs).lt_of_le
    ((List.perm_insertionSort (· ≤ ·) xs).nodup_iff.mpr h)

theorem mem_sortStrings (xs : List String) (x : String) : x ∈ sortStrings xs ↔ x ∈ xs := by
  unfold sortStrings
  exact List.mem_insertionSort (· ≤ ·)

theorem periodTotal_foldl (metric : AuthorStats → Int) (T : PeriodTable)
    (branches : List String) (a p : String) (x : Int) :
    branches.foldl (fun total branch =>
      match (T.getD p).get? branch with
      | some periodData =>
        match periodData.get? a with
        | some authorData => total + metric authorData
        | none => total
      | none => total) x =
    x + (branches.map fun b => ((T.bucket? p b a).map metric).getD 0).sum := by
  induction branches generalizing x with
  | nil => simp
  | cons b bs ih =>
    rw [List.foldl_cons, ih, List.map_cons, List.sum_cons]
    have hb : T.bucket? p b a = ((GoMap.getD T p).getD b).get? a := rfl
    rw [hb]
    cases h1 : (GoMap.getD T p).get? b with
    | none =>
      rw [GoMap.getD_of_get?_none h1]
      simp [GoMap.get?]
    | some M =>
      rw [GoMap.getD_of_get? h1]
      cases h2 : M.get? a with
      | none => simp [h2]
      | some v => simp [h2, add_assoc]

theorem periodTotal_eq (metric : AuthorStats → Int) (T : PeriodTable)
    (branches : List String) (a p : String) :
    periodTotal metric T branches a p =
      (branches.map fun b => ((T.bucket? p b a).map metric).getD 0).sum := by
  unfold periodTotal
  rw [periodTotal_foldl]
  simp

/-! ## Lemmas on the diff parser and on the store -/

theorem GenerateFileCacheKey_path_inj (revision p q : String)
    (h : GenerateFileCacheKey revision p = GenerateFileCacheKey revision q) : p = q := by
  unfold GenerateFileCacheKey at h
  have h' := congrArg String.data h
  simp only [String.data_append, List.append_cancel_left_eq] at h'
  exact String.ext h'

theorem splitScan_ne_nil (sep s : List Char) (skip : Nat) (cur : List Char) :
    splitScan sep s skip cur ≠ [] := by
  induction s generalizing skip cur with
  | nil => simp [splitScan]
  | cons c rest ih =>
    cases skip with
    | zero =>
      simp only [splitScan]
      split
      · simp
      · exact ih _ _
    | succ n =>
      simp only [splitScan]
      exact ih _ _

theorem splitScan_single (sep s cur : List Char)
    (h : (splitScan sep s 0 cur).length ≤ 1) : splitScan sep s 0 cur = [cur.reverse ++ s] := by
  induction s generalizing cur with
  | nil => simp [splitScan]
  | cons c rest ih =>
    simp only [splitScan] at h ⊢
    split at h
    · rename_i hp
      exfalso
      have := splitScan_ne_nil sep rest (sep.length - 1) []
      cases hs : splitScan sep rest (sep.length - 1) [] with
      | nil => exact this hs
      | cons x xs => rw [hs] at h; simp at h
    · rename_i hp
      rw [if_neg hp, ih _ h]
      simp

/-- A text that `strings.Split` leaves in one piece is that piece. -/
theorem Split_single (s sep : String) (hsep : sep.data ≠ []) (h : (Split s sep).length ≤ 1) :
    Split s sep = [s] := by
  unfold Split at h ⊢
  have he : sep.data.isEmpty = false := by
    cases hd : sep.data with
    | nil => exact absurd hd hsep
    | cons c cs => rfl
  rw [he] at h ⊢
  simp only [Bool.false_eq_true, if_false, List.length_map] at h ⊢
  rw [splitScan_single _ _ _ h]
  simp

theorem HasPrefix_minus_not_plus (line : String) (h : HasPrefix line "-" = true) :
    HasPrefix line "+" = false := by
  unfold HasPrefix at h ⊢
  cases hd : line.data with
  | nil => rw [hd] at h; simp [List.isPrefixOf] at h
  | cons c cs =>
    rw [hd] at h
    have hc : '-' = c := by
      simpa [List.isPrefixOf] using h
    subst hc
    simp [List.isPrefixOf]

theorem countLines_foldl (lines : List String) (x y : Int) :
    lines.foldl (fun (acc : Int × Int) line =>
      if HasPrefix line "+" && !HasPrefix line "+++" then (acc.1 + 1, acc.2)
      else if HasPrefix line "-" && !HasPrefix line "---" then (acc.1, acc.2 + 1)
      else acc) (x, y) =
    (x + ((lines.filter fun l => HasPrefix l "+" && !HasPrefix l "+++").length : Int),
     y + ((lines.filter fun l => HasPrefix l "-" && !HasPrefix l "---").length : Int)) := by
  induction lines generalizing x y with
  | nil => simp
  | cons l ls ih =>
    rw [List.foldl_cons, List.filter_cons, List.filter_cons]
    by_cases hp : (HasPrefix l "+" && !HasPrefix l "+++") = true
    · have hm : (HasPrefix l "-" && !HasPrefix l "---") = false := by
        cases hmm : HasPrefix l "-" with
        | false => simp
        | true =>
          have := HasPrefix_minus_not_plus l hmm
          simp [this] at hp
      rw [if_pos hp, if_pos hp, hm, ih]
      simp only [Bool.false_eq_true, if_false, List.length_cons, Nat.cast_add, Nat.cast_one]
      refine Prod.ext ?_ rfl
      show x + 1 + _ = x + (_ + 1)
      ring
    · by_cases hm : (HasPrefix l "-" && !HasPrefix l "---") = true
      · rw [if_neg hp, if_pos hm, if_neg hp, if_pos hm, ih]
        simp only [List.length_cons, Nat.cast_add, Nat.cast_one]
        refine Prod.ext rfl ?_
        show y + 1 + _ = y + (_ + 1)
        ring
      · rw [if_neg hp, if_neg hm, if_neg hp, if_neg hm, ih]

/-- The counts of `countLines`: the lines that begin with `+` but not with `+++`, and
the lines that begin with `-` but not with `---`. -/
theorem countLines_eq (fileContent : String) :
    countLines fileContent =
      ((((Split fileContent "\n").filter fun l =>
          HasPrefix l "+" && !HasPrefix l "+++").length : Int),
       (((Split fileContent "\n").filter fun l =>
          HasPrefix l "-" && !HasPrefix l "---").length : Int)) := by
  unfold countLines
  rw [countLines_foldl]
  simp

theorem parseMatches_append (found : List (List String)) (m : List String)
    (h : 3 ≤ m.length) :
    parseMatches (found ++ [m]) =
      ((parseMatches found).1 + (countLines (m.getD 0 "")).1,
       (parseMatches found).2.1 + (countLines (m.getD 0 "")).2,
       (parseMatches found).2.2.set (blockFilePath (m.getD 1 "") (m.getD 2 ""))
         { LinesAdded := (countLines (m.getD 0 "")).1
           LinesDeleted := (countLines (m.getD 0 "")).2, Cached := false, Author := "" }) := by
  have h3 : ¬ m.length < 3 := by omega
  unfold parseMatches
  rw [List.foldl_append]
  simp only [List.foldl_cons, List.foldl_nil, h3, if_false]

theorem parseMatches_foldl_inv (found : List (List String)) (acc : Int × Int × GoMap FileDetail)
    (hn : acc.2.2.keys.Nodup)
    (ha : ∀ p d, acc.2.2.get? p = some d → d.Author = "" ∧ d.Cached = false) :
    let out := found.foldl (fun (acc : Int × Int × GoMap FileDetail) m =>
      if m.length < 3 then acc
      else
        let filePath := blockFilePath (m.getD 1 "") (m.getD 2 "")
        let counts := countLines (m.getD 0 "")
        (acc.1 + counts.1, acc.2.1 + counts.2,
          acc.2.2.set filePath
            { LinesAdded := counts.1, LinesDeleted := counts.2, Cached := false, Author := "" }))
      acc
    out.2.2.keys.Nodup ∧ ∀ p d, out.2.2.get? p = some d → d.Author = "" ∧ d.Cached = false := by
  induction found generalizing acc with
  | nil => exact ⟨hn, ha⟩
  | cons m ms ih =>
    simp only [List.foldl_cons]
    by_cases h3 : m.length < 3
    · simp only [h3, if_true]
      exact ih acc hn ha
    · simp only [h3, if_false]
      apply ih
      · exact GoMap.nodup_keys_set _ _ _ hn
      · intro p d hp
        rw [GoMap.get?_set] at hp
        split at hp
        · cases hp
          exact ⟨rfl, rfl⟩
        · exact ha p d hp

/-- The map of `parseMatches` has each key once, and each of its entries has a blank
author and `Cached = false`. -/
theorem parseMatches_inv (found : List (List String)) :
    (parseMatches found).2.2.keys.Nodup ∧
    ∀ p d, (parseMatches found).2.2.get? p = some d → d.Author = "" ∧ d.Cached = false :=
  parseMatches_foldl_inv found (0, 0, []) List.nodup_nil (fun p d h => by simp [GoMap.get?] at h)

theorem cacheParsedFiles_foldl (env : Env) (branchURL revision username password : String)
    (fileDetails : GoMap FileDetail) (acc : CacheData × List ExternalCall)
    (hn : fileDetails.keys.Nodup) :
    let out := fileDetails.foldl (fun (acc : CacheData × List ExternalCall) entry =>
      let filePath := entry.1
      let detail := entry.2
      let calls := acc.2 ++ [ExternalCall.cat branchURL revision filePath]
      match env.svn.GetSVNFileContent branchURL revision filePath username password with
      | .error _ => (acc.1, calls)
      | .ok content =>
        (UpdateRevisionFileCache env.now acc.1 revision filePath (env.md5hex content)
          detail.Author detail.LinesAdded detail.LinesDeleted, calls)) acc
    out.2 = acc.2 ++ fileDetails.keys.map (ExternalCall.cat branchURL revision) ∧
    out.1.Version = acc.1.Version ∧
    out.1.Cache.RevisionSummary = acc.1.Cache.RevisionSummary ∧
    ∀ q, GetRevisionFileCache out.1 revision q =
      match fileDetails.get? q,
        env.svn.GetSVNFileContent branchURL revision q username password with
      | some detail, .ok content =>
        some { Revision := revision, FilePath := q, Hash := env.md5hex content,
               Author := detail.Author, LinesAdded := detail.LinesAdded,
               LinesDeleted := detail.LinesDeleted, Timestamp := env.now }
      | _, _ => GetRevisionFileCache acc.1 revision q := by
  induction fileDetails generalizing acc with
  | nil =>
    refine ⟨by simp [GoMap.keys], rfl, rfl, fun q => ?_⟩
    simp [GoMap.get?]
  | cons e rest ih =>
    obtain ⟨p, det⟩ := e
    have hn' : p ∉ GoMap.keys rest ∧ (GoMap.keys rest).Nodup := by
      simpa [GoMap.keys] using hn
    have hrest : GoMap.get? rest p = none := by
      cases hg : GoMap.get? rest p with
      | none => rfl
      | some v =>
        exact absurd ((GoMap.mem_keys_iff rest p).mpr (by simp [hg])) hn'.1
    simp only [List.foldl_cons]
    cases hf : env.svn.GetSVNFileContent branchURL revision p username password with
    | error err =>
      have := ih (acc.1, acc.2 ++ [ExternalCall.cat branchURL revision p]) hn'.2
      simp only at this
      obtain ⟨h1, h2, h3, h4⟩ := this
      refine ⟨?_, h2, h3, fun q => ?_⟩
      · rw [h1]; simp [GoMap.keys]
      · rw [h4 q]
        by_cases hq : p = q
        · subst hq
          simp [GoMap.get?, hf, hrest]
        · simp [GoMap.get?, hq]
    | ok content =>
      have := ih (UpdateRevisionFileCache env.now acc.1 revision p (env.md5hex content)
          det.Author det.LinesAdded det.LinesDeleted,
        acc.2 ++ [ExternalCall.cat branchURL revision p]) hn'.2
      simp only at this
      obtain ⟨h1, h2, h3, h4⟩ := this
      refine ⟨?_, h2, h3, fun q => ?_⟩
      · rw [h1]; simp [GoMap.keys]
      · rw [h4 q]
        by_cases hq : p = q
        · subst hq
          simp [GoMap.get?, hf, hrest, GetRevisionFileCache, UpdateRevisionFileCache,
            GoMap.get?_set_self]
        · have hk : GenerateFileCacheKey revision p ≠ GenerateFileCacheKey revision q :=
            fun e => hq (GenerateFileCacheKey_path_inj revision p q e)
          simp [GoMap.get?, hq, GetRevisionFileCache, UpdateRevisionFileCache,
            GoMap.get?_set_ne _ _ hk]

theorem TrimPrefix_slash (s : String) (h : HasPrefix s "/" = true) :
    TrimPrefix s "/" = String.mk (s.data.drop 1) := by
  unfold TrimPrefix
  rw [if_pos h]
  rfl

theorem Join_pair (a b sep : String) : Join [a, b] sep = a ++ sep ++ b := by
  unfold Join
  apply String.ext
  simp [List.intercalate]

theorem lastTwo_exists {α : Type} (l : List α) (h : 1 < l.length) :
    ∃ init a b, l = init ++ [a, b] ∧ l.drop (l.length - 2) = [a, b] := by
  have hd : (l.drop (l.length - 2)).length = 2 := by
    rw [List.length_drop]; omega
  obtain ⟨a, b, hab⟩ := List.length_eq_two.mp hd
  refine ⟨l.take (l.length - 2), a, b, ?_, hab⟩
  rw [← hab, List.take_append_drop]

/-- The key chosen by `blockFilePath`, in the words of the three cases. -/
theorem blockFilePath_cases (oldHeader newHeader : String) :
    (HasPrefix (TrimSpace oldHeader) "/" = true →
      blockFilePath oldHeader newHeader = String.mk ((TrimSpace oldHeader).data.drop 1)) ∧
    (HasPrefix (TrimSpace oldHeader) "/" = false →
      (1 < (Split (TrimSpace newHeader) "/").length →
        ∃ init a b, Split (TrimSpace newHeader) "/" = init ++ [a, b] ∧
          blockFilePath oldHeader newHeader = a ++ "/" ++ b) ∧
      ((Split (TrimSpace newHeader) "/").length ≤ 1 →
        blockFilePath oldHeader newHeader = TrimSpace newHeader)) := by
  refine ⟨fun h => ?_, fun h => ⟨fun hl => ?_, fun hl => ?_⟩⟩
  · unfold blockFilePath
    simp only [h, if_true]
    exact TrimPrefix_slash _ h
  · obtain ⟨init, a, b, h1, h2⟩ := lastTwo_exists _ hl
    refine ⟨init, a, b, h1, ?_⟩
    unfold blockFilePath
    simp only [h, Bool.false_eq_true, if_false, gt_iff_lt, hl, if_true, h2]
    exact Join_pair a b "/"
  · have hs := Split_single (TrimSpace newHeader) "/" (by decide) hl
    unfold blockFilePath
    have hl' : ¬ (Split (TrimSpace newHeader) "/").length > 1 := by omega
    simp only [h, Bool.false_eq_true, if_false, hl']
    rw [hs]
    rfl

theorem storeParsed_facts (env : Env) (cacheData : CacheData)
    (branchURL revision username password : String) (calls : List ExternalCall)
    (a d : Int) (fileDetails : GoMap FileDetail) (hn : fileDetails.keys.Nodup) :
    let run := storeParsed env cacheData branchURL revision username password calls a d
      fileDetails
    run.result = .ok ⟨a, d, some fileDetails, none⟩ ∧
    run.calls = calls ++ fileDetails.keys.map (ExternalCall.cat branchURL revision) ∧
    GetRevisionSummaryCache run.cacheData revision =
      some { Revision := revision, BranchURL := branchURL, TotalLinesAdded := a,
             TotalLinesDeleted := d, FileCount := fileDetails.keys.length,
             FileList := fileDetails.keys, Timestamp := env.now } ∧
    ∀ q, GetRevisionFileCache run.cacheData revision q =
      match fileDetails.get? q,
        env.svn.GetSVNFileContent branchURL revision q username password with
      | some detail, .ok content =>
        some { Revision := revision, FilePath := q, Hash := env.md5hex content,
               Author := detail.Author, LinesAdded := detail.LinesAdded,
               LinesDeleted := detail.LinesDeleted, Timestamp := env.now }
      | _, _ => GetRevisionFileCache cacheData revision q := by
  obtain ⟨h1, _, _, h4⟩ := cacheParsedFiles_foldl env branchURL revision username password
    fileDetails (cacheData, []) hn
  refine ⟨rfl, ?_, ?_, fun q => ?_⟩
  · show calls ++ (cacheParsedFiles env branchURL revision username password fileDetails
      cacheData).2 = _
    unfold cacheParsedFiles
    rw [h1]
    simp
  · simp [storeParsed, GetRevisionSummaryCache, UpdateRevisionSummaryCache,
      GoMap.get?_set_self, GoMap.keys]
  · rw [← h4 q]
    rfl

/-! ## Claims C11 to C17 -/

/-- C11 (as stated, refuted). For the block `signedBlock`, whose content has the added
line `++i;` and the deleted line `--j;`, the loop of `ParseSVNDiff` records 1 line added
and 0 deleted for `a.txt`, while the block has 2 lines that begin with `+` other than
its `+++` header and 1 line that begins with `-` other than its `---` header. -/
theorem parseMatches_signedBlock :
    parseMatches [[signedBlock, "/a.txt", "/a.txt"]] = (1, 0, [("a.txt", ⟨1, 0, false, ""⟩)]) ∧
    specLineCounts signedBlock = (2, 1) := by
  decide

/-- C11 (amended). For every matched block, the loop of `ParseSVNDiff` records for the
file of the block, and adds to the totals, the number of lines of the matched text that
begin with `+` but not with `+++` as lines added and the number of lines that begin
with `-` but not with `---` as lines deleted; no other line changes a count. -/
theorem parseMatches_counts (found : List (List String)) (m : List String)
    (h : 3 ≤ m.length) :
    (parseMatches (found ++ [m])).2.2.get? (blockFilePath (m.getD 1 "") (m.getD 2 "")) =
      some { LinesAdded := (((Split (m.getD 0 "") "\n").filter fun l =>
               HasPrefix l "+" && !HasPrefix l "+++").length : Int)
             LinesDeleted := (((Split (m.getD 0 "") "\n").filter fun l =>
               HasPrefix l "-" && !HasPrefix l "---").length : Int)
             Cached := false, Author := "" } ∧
    (parseMatches (found ++ [m])).1 = (parseMatches found).1 +
      (((Split (m.getD 0 "") "\n").filter fun l =>
        HasPrefix l "+" && !HasPrefix l "+++").length : Int) ∧
    (parseMatches (found ++ [m])).2.1 = (parseMatches found).2.1 +
      (((Split (m.getD 0 "") "\n").filter fun l =>
        HasPrefix l "-" && !HasPrefix l "---").length : Int) := by
  rw [parseMatches_append found m h, countLines_eq]
  exact ⟨GoMap.get?_set_self _ _ _, rfl, rfl⟩

/-- Witness of `parseMatches_counts`: the block `signedBlock` after no other block. -/
theorem parseMatches_counts_witness :
    (parseMatches ([] ++ [[signedBlock, "/a.txt", "/a.txt"]])).2.2.get?
        (blockFilePath ([signedBlock, "/a.txt", "/a.txt"].getD 1 "")
          ([signedBlock, "/a.txt", "/a.txt"].getD 2 "")) =
      some { LinesAdded := (((Split ([signedBlock, "/a.txt", "/a.txt"].getD 0 "") "\n").filter
               fun l => HasPrefix l "+" && !HasPrefix l "+++").length : Int)
             LinesDeleted := (((Split ([signedBlock, "/a.txt", "/a.txt"].getD 0 "") "\n").filter
               fun l => HasPrefix l "-" && !HasPrefix l "---").length : Int)
             Cached := false, Author := "" } ∧
    (parseMatches ([] ++ [[signedBlock, "/a.txt", "/a.txt"]])).1 = (parseMatches []).1 +
      (((Split ([signedBlock, "/a.txt", "/a.txt"].getD 0 "") "\n").filter fun l =>
        HasPrefix l "+" && !HasPrefix l "+++").length : Int) ∧
    (parseMatches ([] ++ [[signedBlock, "/a.txt", "/a.txt"]])).2.1 = (parseMatches []).2.1 +
      (((Split ([signedBlock, "/a.txt", "/a.txt"].getD 0 "") "\n").filter fun l =>
        HasPrefix l "-" && !HasPrefix l "---").length : Int) :=
  parseMatches_counts [] [signedBlock, "/a.txt", "/a.txt"] (by decide)

/-- C12. For every matched block, the loop of `ParseSVNDiff` records the block under a
key that is: the trimmed old-file header path less its first character, when that path
starts with `/`; else the last two `/`-separated segments of the trimmed new-file
header path joined by `/`, when there are at least two; else the trimmed new-file
header path itself. -/
theorem parseMatches_key (found : List (List String)) (m : List String)
    (h : 3 ≤ m.length) :
    ∃ key entry,
      (parseMatches (found ++ [m])).2.2 = (parseMatches found).2.2.set key entry ∧
      (HasPrefix (TrimSpace (m.getD 1 "")) "/" = true →
        key = String.mk ((TrimSpace (m.getD 1 "")).data.drop 1)) ∧
      (HasPrefix (TrimSpace (m.getD 1 "")) "/" = false →
        (1 < (Split (TrimSpace (m.getD 2 "")) "/").length →
          ∃ init a b, Split (TrimSpace (m.getD 2 "")) "/" = init ++ [a, b] ∧
            key = a ++ "/" ++ b) ∧
        ((Split (TrimSpace (m.getD 2 "")) "/").length ≤ 1 →
          key = TrimSpace (m.getD 2 ""))) := by
  refine ⟨blockFilePath (m.getD 1 "") (m.getD 2 ""),
    { LinesAdded := (countLines (m.getD 0 "")).1, LinesDeleted := (countLines (m.getD 0 "")).2
      Cached := false, Author := "" }, ?_, blockFilePath_cases _ _⟩
  rw [parseMatches_append found m h]

/-- Witness of `parseMatches_key`: a block whose old-file header path is relative, so
that the key comes from the new-file header path. -/
theorem parseMatches_key_witness :
    ∃ key entry,
      (parseMatches ([] ++ [["", " src/a.txt ", "trunk/src/a.txt"]])).2.2 =
        (parseMatches []).2.2.set key entry ∧
      (HasPrefix (TrimSpace (["", " src/a.txt ", "trunk/src/a.txt"].getD 1 "")) "/" = true →
        key = String.mk
          ((TrimSpace (["", " src/a.txt ", "trunk/src/a.txt"].getD 1 "")).data.drop 1)) ∧
      (HasPrefix (TrimSpace (["", " src/a.txt ", "trunk/src/a.txt"].getD 1 "")) "/" = false →
        (1 < (Split (TrimSpace (["", " src/a.txt ", "trunk/src/a.txt"].getD 2 "")) "/").length →
          ∃ init a b,
            Split (TrimSpace (["", " src/a.txt ", "trunk/src/a.txt"].getD 2 "")) "/" =
              init ++ [a, b] ∧
            key = a ++ "/" ++ b) ∧
        ((Split (TrimSpace (["", " src/a.txt ", "trunk/src/a.txt"].getD 2 "")) "/").length ≤ 1 →
          key = TrimSpace (["", " src/a.txt ", "trunk/src/a.txt"].getD 2 ""))) :=
  parseMatches_key [] ["", " src/a.txt ", "trunk/src/a.txt"] (by decide)

/-- C13 (as stated, refuted). With a client whose content requests fail, the code of
`GetSVNDiffWithCache` after the parse, run for the parsed file `a/foo.txt`, makes the
content request and returns the parsed totals and map with a nil error. -/
theorem storeParsed_content_fails :
    (storeParsed (stubEnv (contentFailingClient fooDiff)) getDefaultCache
      "http://svn/trunk" "100" "" "" [ExternalCall.diff "http://svn/trunk" "100"] 2 1
      [("a/foo.txt", ⟨2, 1, false, ""⟩)]).result =
        .ok ⟨2, 1, some [("a/foo.txt", ⟨2, 1, false, ""⟩)], none⟩ ∧
    (storeParsed (stubEnv (contentFailingClient fooDiff)) getDefaultCache
      "http://svn/trunk" "100" "" "" [ExternalCall.diff "http://svn/trunk" "100"] 2 1
      [("a/foo.txt", ⟨2, 1, false, ""⟩)]).calls =
        [ExternalCall.diff "http://svn/trunk" "100",
         ExternalCall.cat "http://svn/trunk" "100" "a/foo.txt"] :=
  ⟨rfl, rfl⟩

/-- C13 (amended). Whatever the outcome of the content requests, the code of
`GetSVNDiffWithCache` after the parse makes one content request per parsed file and
returns the parsed totals and map with a nil error; a file whose content request fails
is skipped: the file entry of its path is left as it was. -/
theorem storeParsed_skips_failed (env : Env) (cacheData : CacheData)
    (branchURL revision username password : String) (calls : List ExternalCall)
    (found : List (List String)) :
    (storeParsed env cacheData branchURL revision username password calls
      (parseMatches found).1 (parseMatches found).2.1 (parseMatches found).2.2).result =
        .ok ⟨(parseMatches found).1, (parseMatches found).2.1,
          some (parseMatches found).2.2, none⟩ ∧
    (storeParsed env cacheData branchURL revision username password calls
      (parseMatches found).1 (parseMatches found).2.1 (parseMatches found).2.2).calls =
        calls ++ (parseMatches found).2.2.keys.map (ExternalCall.cat branchURL revision) ∧
    ∀ p err, env.svn.GetSVNFileContent branchURL revision p username password = .error err →
      GetRevisionFileCache (storeParsed env cacheData branchURL revision username password
        calls (parseMatches found).1 (parseMatches found).2.1
        (parseMatches found).2.2).cacheData revision p =
      GetRevisionFileCache cacheData revision p := by
  obtain ⟨h1, h2, _, h4⟩ := storeParsed_facts env cacheData branchURL revision username
    password calls (parseMatches found).1 (parseMatches found).2.1 (parseMatches found).2.2
    (parseMatches_inv found).1
  refine ⟨h1, h2, fun p err hp => ?_⟩
  rw [h4 p, hp]
  cases (parseMatches found).2.2.get? p <;> rfl

/-- C14. When `GetSVNDiffWithCache` makes the diff request and the request fails, it
returns that error with totals 0 and 0 and a nil map, the diff request is its only
external call, `SaveCache` is not called and the store is as before. -/
theorem GetSVNDiffWithCache_diff_fails (env : Env) (cacheData : CacheData)
    (branchURL revision username password cacheDir err : String)
    (hcall : ExternalCall.diff branchURL revision ∈
      (GetSVNDiffWithCache env cacheData branchURL revision username password cacheDir).calls)
    (hfail : env.svn.GetSVNDiff branchURL revision username password = .error err) :
    GetSVNDiffWithCache env cacheData branchURL revision username password cacheDir =
      { cacheData := cacheData, calls := [ExternalCall.diff branchURL revision]
        saved := none
        result := .ok { totalLinesAdded := 0, totalLinesDeleted := 0
                        fileDetails := none, err := some err } } := by
  unfold GetSVNDiffWithCache at hcall ⊢
  cases hc : cachedResult cacheData revision with
  | some r =>
    simp [hc] at hcall
  | none =>
    simp only [hc, hfail]

/-- Witness of `GetSVNDiffWithCache_diff_fails`: the store `driftedStore` and a client
whose every call fails. -/
theorem GetSVNDiffWithCache_diff_fails_witness :
    GetSVNDiffWithCache (stubEnv failingClient) driftedStore "http://svn/trunk" "100" "" ""
        "../cache" =
      { cacheData := driftedStore, calls := [ExternalCall.diff "http://svn/trunk" "100"]
        saved := none
        result := .ok { totalLinesAdded := 0, totalLinesDeleted := 0
                        fileDetails := none, err := some "svn: E170013" } } :=
  GetSVNDiffWithCache_diff_fails (stubEnv failingClient) driftedStore "http://svn/trunk"
    "100" "" "" "../cache" "svn: E170013" (by decide) rfl

/-- C15 (as stated, refuted). With a client whose content requests fail, the code of
`GetSVNDiffWithCache` after the parse, run for the parsed file `a/foo.txt` on the empty
store, returns with a nil error and leaves a summary for revision 100 that lists
`a/foo.txt` while the store has no file entry for it: the summary is not valid for
reuse. -/
theorem storeParsed_summary_without_entry :
    (storeParsed (stubEnv (contentFailingClient fooDiff)) getDefaultCache
      "http://svn/trunk" "100" "" "" [ExternalCall.diff "http://svn/trunk" "100"] 2 1
      [("a/foo.txt", ⟨2, 1, false, ""⟩)]).result =
        .ok ⟨2, 1, some [("a/foo.txt", ⟨2, 1, false, ""⟩)], none⟩ ∧
    (GetRevisionSummaryCache
      (storeParsed (stubEnv (contentFailingClient fooDiff)) getDefaultCache
        "http://svn/trunk" "100" "" "" [ExternalCall.diff "http://svn/trunk" "100"] 2 1
        [("a/foo.txt", ⟨2, 1, false, ""⟩)]).cacheData "100").map
          RevisionSummaryCache.FileList = some ["a/foo.txt"] ∧
    GetRevisionFileCache
      (storeParsed (stubEnv (contentFailingClient fooDiff)) getDefaultCache
        "http://svn/trunk" "100" "" "" [ExternalCall.diff "http://svn/trunk" "100"] 2 1
        [("a/foo.txt", ⟨2, 1, false, ""⟩)]).cacheData "100" "a/foo.txt" = none ∧
    cachedResult
      (storeParsed (stubEnv (contentFailingClient fooDiff)) getDefaultCache
        "http://svn/trunk" "100" "" "" [ExternalCall.diff "http://svn/trunk" "100"] 2 1
        [("a/foo.txt", ⟨2, 1, false, ""⟩)]).cacheData "100" = none := by
  refine ⟨rfl, ?_, ?_, ?_⟩ <;> decide

/-- C15 (amended). After the code of `GetSVNDiffWithCache` that follows the parse, for
every parsed result: the call returns the parsed values with a nil error; the store
holds a summary for the revision with the parsed totals, a file list that is exactly
the parsed paths, each once, and a file count equal to the length of that list; for
every parsed path whose content request succeeded it holds a file entry at
(revision, path) with the parsed lines added and deleted and a blank author; and when
every content request succeeded, every listed path has a file entry, so that the
summary is served from the cache by the next call. -/
theorem storeParsed_store (env : Env) (cacheData : CacheData)
    (branchURL revision username password : String) (calls : List ExternalCall)
    (found : List (List String)) :
    ∃ run, run = storeParsed env cacheData branchURL revision username password calls
        (parseMatches found).1 (parseMatches found).2.1 (parseMatches found).2.2 ∧
      run.result = .ok ⟨(parseMatches found).1, (parseMatches found).2.1,
        some (parseMatches found).2.2, none⟩ ∧
      GetRevisionSummaryCache run.cacheData revision =
        some { Revision := revision, BranchURL := branchURL
               TotalLinesAdded := (parseMatches found).1
               TotalLinesDeleted := (parseMatches found).2.1
               FileCount := (parseMatches found).2.2.keys.length
               FileList := (parseMatches found).2.2.keys, Timestamp := env.now } ∧
      (parseMatches found).2.2.keys.Nodup ∧
      (∀ p detail content, (parseMatches found).2.2.get? p = some detail →
        env.svn.GetSVNFileContent branchURL revision p username password = .ok content →
        GetRevisionFileCache run.cacheData revision p =
          some { Revision := revision, FilePath := p, Hash := env.md5hex content
                 Author := "", LinesAdded := detail.LinesAdded
                 LinesDeleted := detail.LinesDeleted, Timestamp := env.now }) ∧
      ((∀ p ∈ (parseMatches found).2.2.keys, ∃ content,
          env.svn.GetSVNFileContent branchURL revision p username password = .ok content) →
        (∀ p ∈ (parseMatches found).2.2.keys,
          (GetRevisionFileCache run.cacheData revision p).isSome = true) ∧
        (cachedResult run.cacheData revision).isSome = true) := by
  obtain ⟨hnd, hauth⟩ := parseMatches_inv found
  obtain ⟨h1, _, h3, h4⟩ := storeParsed_facts env cacheData branchURL revision username
    password calls (parseMatches found).1 (parseMatches found).2.1 (parseMatches found).2.2
    hnd
  have hentry : ∀ p detail content, (parseMatches found).2.2.get? p = some detail →
      env.svn.GetSVNFileContent branchURL revision p username password = .ok content →
      GetRevisionFileCache (storeParsed env cacheData branchURL revision username password
        calls (parseMatches found).1 (parseMatches found).2.1
        (parseMatches found).2.2).cacheData revision p =
        some { Revision := revision, FilePath := p, Hash := env.md5hex content
               Author := "", LinesAdded := detail.LinesAdded
               LinesDeleted := detail.LinesDeleted, Timestamp := env.now } := by
    intro p detail content hp hc
    have ha := (hauth p detail hp).1
    rw [h4 p, hp, hc]
    simp [ha]
  have hall : (∀ p ∈ (parseMatches found).2.2.keys, ∃ content,
      env.svn.GetSVNFileContent branchURL revision p username password = .ok content) →
      ∀ p ∈ (parseMatches found).2.2.keys,
        (GetRevisionFileCache (storeParsed env cacheData branchURL revision username
          password calls (parseMatches found).1 (parseMatches found).2.1
          (parseMatches found).2.2).cacheData revision p).isSome = true := by
    intro hok p hp
    obtain ⟨content, hc⟩ := hok p hp
    obtain ⟨detail, hd⟩ := Option.isSome_iff_exists.mp
      ((GoMap.mem_keys_iff _ p).mp hp)
    rw [hentry p detail content hd hc]
    rfl
  refine ⟨_, rfl, h1, h3, hnd, hentry, fun hok => ⟨hall hok, ?_⟩⟩
  obtain ⟨c1, _, _⟩ := collectCached_foldl _ revision (parseMatches found).2.2.keys
    ([], false) (hall hok)
  unfold cachedResult
  rw [h3]
  have hc : (collectCached (storeParsed env cacheData branchURL revision username password
      calls (parseMatches found).1 (parseMatches found).2.1
      (parseMatches found).2.2).cacheData revision (parseMatches found).2.2.keys).2 = false :=
    c1
  simp [hc]

/-- C16 (code defect). `ParseSVNDiff` returns for no input: whatever the matcher and
the text, `regexp.MustCompile` panics on the pattern, which has the look-ahead group
`(?=` and the escape `\Z` that Go's regexp syntax does not have. -/
theorem ParseSVNDiff_never_returns (re : RegexpLib) (diffOutput : String) :
    ParseSVNDiff re diffOutput =
      .error "regexp: Compile: error parsing regexp: invalid or unsupported Perl syntax" ∧
    regexpSyntaxError .normal fileBlockPattern.data =
      some "invalid or unsupported Perl syntax" ∧
    ∀ parsed, ParseSVNDiff re diffOutput ≠ .ok parsed := by
  refine ⟨rfl, by decide, fun parsed h => ?_⟩
  have h' : (Except.error
      "regexp: Compile: error parsing regexp: invalid or unsupported Perl syntax" :
      Except String (Int × Int × GoMap FileDetail)) = .ok parsed := h
  cases h'

/-- C17 (code defect). On the empty text and on the truncated text `truncatedDiff`,
neither of which has a `---` header followed by a `+++` header, `ParseSVNDiff` panics in
`regexp.MustCompile` instead of returning (0, 0, empty map); the loop itself yields
(0, 0, empty map) when there is no match. -/
theorem ParseSVNDiff_no_block :
    (∀ re : RegexpLib, ParseSVNDiff re "" =
      .error "regexp: Compile: error parsing regexp: invalid or unsupported Perl syntax") ∧
    (∀ re : RegexpLib, ParseSVNDiff re truncatedDiff =
      .error "regexp: Compile: error parsing regexp: invalid or unsupported Perl syntax") ∧
    parseMatches [] = (0, 0, []) :=
  ⟨fun _ => rfl, fun _ => rfl, rfl⟩

theorem prepareSeries_labels (metric : AuthorStats → Int) (T : PeriodTable)
    (authors branches periods : List String) :
    (prepareSeries metric T authors branches periods).map ChartDataSeries.Label = authors := by
  unfold prepareSeries
  rw [List.map_map]
  exact List.map_id authors

theorem prepareSeries_data (metric : AuthorStats → Int) (T : PeriodTable)
    (authors branches periods : List String) (s : ChartDataSeries)
    (hs : s ∈ prepareSeries metric T authors branches periods) :
    s.Data = periods.map (periodTotal metric T branches s.Label) := by
  unfold prepareSeries at hs
  obtain ⟨a, _, rfl⟩ := List.mem_map.mp hs
  rfl

/-! ## Claims C18 to C20 -/

/-- C18. For every commit list, each series of `MonthlyDataFiles` and of
`MonthlyDataLines` has as many values as `ChartData.Months` has keys, each series of
`DailyDataFiles` and of `DailyDataLines` as many as `ChartData.Days`, and the values of
a series are, in order, the totals computed for the keys of the sorted list. -/
theorem GenerateAnalysisResults_series_aligned (tl : TimeLib) (commits : List Commit)
    (startDate endDate revisionRange cacheDir : String) :
    ∃ r, GenerateAnalysisResults tl commits startDate endDate revisionRange cacheDir = .ok r ∧
      (∀ s ∈ r.ChartData.MonthlyDataFiles,
        s.Data.length = r.ChartData.Months.length ∧
        s.Data = r.ChartData.Months.map
          (periodTotal AuthorStats.FilesChanged r.MonthlyStats r.ChartData.Branches s.Label)) ∧
      (∀ s ∈ r.ChartData.MonthlyDataLines,
        s.Data.length = r.ChartData.Months.length ∧
        s.Data = r.ChartData.Months.map
          (periodTotal AuthorStats.LinesAdded r.MonthlyStats r.ChartData.Branches s.Label)) ∧
      (∀ s ∈ r.ChartData.DailyDataFiles,
        s.Data.length = r.ChartData.Days.length ∧
        s.Data = r.ChartData.Days.map
          (periodTotal AuthorStats.FilesChanged r.DailyStats r.ChartData.Branches s.Label)) ∧
      (∀ s ∈ r.ChartData.DailyDataLines,
        s.Data.length = r.ChartData.Days.length ∧
        s.Data = r.ChartData.Days.map
          (periodTotal AuthorStats.LinesAdded r.DailyStats r.ChartData.Branches s.Label)) := by
  refine ⟨_, rfl, ?_, ?_, ?_, ?_⟩ <;>
  · intro s hs
    have h := prepareSeries_data _ _ _ _ _ s hs
    exact ⟨by rw [h, List.length_map]; rfl, h⟩

/-- C19. For every commit list, each of the four series lists has one series per entry
of `ChartData.Authors`, in that order and labelled with that author, and the value of
the series of an author for a key of `Months` (of `Days`) is the sum over the branches
of `ChartData.Branches` of `FilesChanged` (for the `...Files` lists) or `LinesAdded`
(for the `...Lines` lists) of the bucket (key, branch, author) of the monthly (daily)
table, a missing bucket counting 0. -/
theorem GenerateAnalysisResults_series_values (tl : TimeLib) (commits : List Commit)
    (startDate endDate revisionRange cacheDir : String) :
    ∃ r, GenerateAnalysisResults tl commits startDate endDate revisionRange cacheDir = .ok r ∧
      r.ChartData.MonthlyDataFiles.map ChartDataSeries.Label = r.ChartData.Authors ∧
      r.ChartData.MonthlyDataLines.map ChartDataSeries.Label = r.ChartData.Authors ∧
      r.ChartData.DailyDataFiles.map ChartDataSeries.Label = r.ChartData.Authors ∧
      r.ChartData.DailyDataLines.map ChartDataSeries.Label = r.ChartData.Authors ∧
      (∀ s ∈ r.ChartData.MonthlyDataFiles, s.Data = r.ChartData.Months.map fun month =>
        (r.ChartData.Branches.map fun b =>
          ((r.MonthlyStats.bucket? month b s.Label).map AuthorStats.FilesChanged).getD 0).sum) ∧
      (∀ s ∈ r.ChartData.MonthlyDataLines, s.Data = r.ChartData.Months.map fun month =>
        (r.ChartData.Branches.map fun b =>
          ((r.MonthlyStats.bucket? month b s.Label).map AuthorStats.LinesAdded).getD 0).sum) ∧
      (∀ s ∈ r.ChartData.DailyDataFiles, s.Data = r.ChartData.Days.map fun day =>
        (r.ChartData.Branches.map fun b =>
          ((r.DailyStats.bucket? day b s.Label).map AuthorStats.FilesChanged).getD 0).sum) ∧
      (∀ s ∈ r.ChartData.DailyDataLines, s.Data = r.ChartData.Days.map fun day =>
        (r.ChartData.Branches.map fun b =>
          ((r.DailyStats.bucket? day b s.Label).map AuthorStats.LinesAdded).getD 0).sum) := by
  refine ⟨_, rfl, prepareSeries_labels _ _ _ _ _, prepareSeries_labels _ _ _ _ _,
    prepareSeries_labels _ _ _ _ _, prepareSeries_labels _ _ _ _ _, ?_, ?_, ?_, ?_⟩ <;>
  · intro s hs
    rw [prepareSeries_data _ _ _ _ _ s hs]
    exact List.map_congr_left fun p _ => periodTotal_eq _ _ _ _ _

/-- C20. For every commit list, `ChartData.Authors`, `Branches`, `Months` and `Days`
are each strictly increasing, and they hold exactly the authors of the commits, the
branch labels of the commits, and the month keys and the day keys of the commits that
carry at least one branch label. -/
theorem GenerateAnalysisResults_chart_keys (tl : TimeLib) (commits : List Commit)
    (startDate endDate revisionRange cacheDir : String) :
    ∃ r, GenerateAnalysisResults tl commits startDate endDate revisionRange cacheDir = .ok r ∧
      r.ChartData.Authors.Sorted (· < ·) ∧
      (∀ a, a ∈ r.ChartData.Authors ↔ ∃ c ∈ commits, c.Author = a) ∧
      r.ChartData.Branches.Sorted (· < ·) ∧
      (∀ b, b ∈ r.ChartData.Branches ↔ ∃ c ∈ commits, b ∈ c.Branches) ∧
      r.ChartData.Months.Sorted (· < ·) ∧
      (∀ k, k ∈ r.ChartData.Months ↔
        ∃ c ∈ commits, c.Branches ≠ [] ∧ tl.monthKey c.Date = k) ∧
      r.ChartData.Days.Sorted (· < ·) ∧
      (∀ k, k ∈ r.ChartData.Days ↔
        ∃ c ∈ commits, c.Branches ≠ [] ∧ tl.dayKey c.Date = k) := by
  refine ⟨_, rfl, sortStrings_sorted _ (getAuthorStats_keys commits).1, fun a => ?_,
    sortStrings_sorted _ (getBranchStats_keys commits).1, fun b => ?_,
    sortStrings_sorted _ (getMonthlyStats_keys tl commits).1, fun k => ?_,
    sortStrings_sorted _ (getDailyStats_keys tl commits).1, fun k => ?_⟩
  · exact (mem_sortStrings _ _).trans ((getAuthorStats_keys commits).2 a)
  · exact (mem_sortStrings _ _).trans ((getBranchStats_keys commits).2 b)
  · exact (mem_sortStrings _ _).trans ((getMonthlyStats_keys tl commits).2 k)
  · exact (mem_sortStrings _ _).trans ((getDailyStats_keys tl commits).2 k)

/-! ## Lemmas for the store, the batch loop and the flat tables -/

theorem addBranches_nodup (stats : AuthorStats) (branches : List String)
    (h : stats.Branches.Nodup) : (addBranches stats branches).Branches.Nodup := by
  unfold addBranches
  induction branches generalizing stats with
  | nil => simpa using h
  | cons b bs ih =>
    rw [List.foldl_cons]
    apply ih
    by_cases hb : stats.Branches.contains b = true
    · rw [if_pos hb]; exact h
    · rw [if_neg hb]
      have hb' : b ∉ stats.Branches := by
        intro hm
        exact hb (by simpa using hm)
      show (stats.Branches ++ [b]).Nodup
      rw [List.nodup_append]
      refine ⟨h, List.nodup_singleton b, ?_⟩
      intro x hx hx'
      rw [List.mem_singleton] at hx'
      subst hx'
      exact hb' hx

theorem authorStep_snd_branches (m : GoMap AuthorStats) (c : Commit)
    (hm : ∀ k v, m.get? k = some v → v.Branches.Nodup) :
    (authorStep m c).2.Branches.Nodup := by
  have hread : ((if m.contains c.Author then m
      else m.set c.Author { (default : AuthorStats) with Branches := [] }).getD
        c.Author).Branches.Nodup := by
    unfold GoMap.getD
    rw [GoMap.get?_ensure]
    simp only [if_true, Option.getD_some]
    cases hg : m.get? c.Author with
    | none => exact List.nodup_nil
    | some v => exact hm _ v hg
  exact addBranches_nodup _ _ hread

theorem append_sep_inj (c : Char) (l1 l2 m1 m2 : List Char) (h1 : c ∉ l1) (h2 : c ∉ l2)
    (h : l1 ++ c :: m1 = l2 ++ c :: m2) : l1 = l2 ∧ m1 = m2 := by
  induction l1 generalizing l2 with
  | nil =>
    cases l2 with
    | nil => simpa using h
    | cons y ys =>
      simp only [List.nil_append, List.cons_append, List.cons.injEq] at h
      exact absurd (h.1 ▸ List.mem_cons_self _ _) h2
  | cons x xs ih =>
    cases l2 with
    | nil =>
      simp only [List.nil_append, List.cons_append, List.cons.injEq] at h
      exact absurd (h.1 ▸ List.mem_cons_self _ _) h1
    | cons y ys =>
      simp only [List.cons_append, List.cons.injEq] at h
      obtain ⟨rfl, ht⟩ := h
      have := ih ys (fun hm => h1 (List.mem_cons_of_mem _ hm))
        (fun hm => h2 (List.mem_cons_of_mem _ hm)) ht
      exact ⟨by rw [this.1], this.2⟩

theorem batchRounds_ok (env : Env) (username password : String) (cacheData : CacheData)
    (commits : List Commit) (out : CacheData × List Commit)
    (h : batchLoop env username password cacheData commits = .ok out) : out.2 = commits := by
  unfold batchLoop at h
  cases hr : batchRounds env username password cacheData commits with
  | error e => rw [hr] at h; cases h
  | ok cd =>
    rw [hr] at h
    injection h with h
    rw [← h]

theorem periodStep_snd_commits (key : String) (c : Commit) (T : PeriodTable) (br : String) :
    (periodStep key c T br).2.Commits = ((T.bucket? key br c.Author).getD default).Commits := by
  have h1 : (periodStep key c T br).2.Commits =
      (((periodStep key c T br).1.bucket? key br c.Author).getD default).Commits := rfl
  rw [h1, periodStep_bucket?, if_pos ⟨rfl, rfl, rfl⟩]
  rfl

/-! ## Claims C21 to C27 and C29 -/

/-- C21. For every commit list and every author, the `Branches` list of the author's
entry in the table of `getAuthorStats` has no duplicate; so has the `Branches` list of
the working copy that the loop body builds from that table for any further commit,
whatever branch labels the commit repeats. -/
theorem getAuthorStats_branches_nodup (commits : List Commit) (a : String)
    (entry : AuthorStats) (h : (getAuthorStats commits).get? a = some entry) :
    entry.Branches.Nodup ∧
    ∀ c : Commit, (authorStep (getAuthorStats commits) c).2.Branches.Nodup := by
  have hall : ∀ k v, (getAuthorStats commits).get? k = some v → v.Branches.Nodup := by
    intro k v hk
    rw [getAuthorStats_get?] at hk
    split at hk
    · cases hk; exact List.nodup_nil
    · cases hk
  exact ⟨hall a entry h, fun c => authorStep_snd_branches _ c hall⟩

/-- Witness of `getAuthorStats_branches_nodup`: the entry of `alice` on the two-commit
scenario. -/
theorem getAuthorStats_branches_nodup_witness :
    (⟨0, 0, 0, 0, []⟩ : AuthorStats).Branches.Nodup ∧
    ∀ c : Commit, (authorStep (getAuthorStats scenarioCommits) c).2.Branches.Nodup :=
  getAuthorStats_branches_nodup scenarioCommits "alice" ⟨0, 0, 0, 0, []⟩ (by decide)

/-- C22 (as stated, refuted). The pairs (`1|2`, `a`) and (`1`, `2|a`) have the same
key, and the file entry written for the first is returned by the lookup of the
second. -/
theorem GenerateFileCacheKey_collision :
    GenerateFileCacheKey "1|2" "a" = GenerateFileCacheKey "1" "2|a" ∧
    GetRevisionFileCache
      (UpdateRevisionFileCache 0 getDefaultCache "1|2" "a" "d41d8" "" 1 0) "1" "2|a" =
        some ⟨"1|2", "a", "d41d8", "", 1, 0, 0⟩ := by
  decide

/-- C22 (amended). For revisions without the character `|`, equal keys come from equal
revisions and equal paths; hence a file entry written for one (revision, path) pair
leaves the lookup of every other pair as it was. -/
theorem GenerateFileCacheKey_inj (r1 r2 p1 p2 : String)
    (h1 : '|' ∉ r1.data) (h2 : '|' ∉ r2.data) :
    (GenerateFileCacheKey r1 p1 = GenerateFileCacheKey r2 p2 → r1 = r2 ∧ p1 = p2) ∧
    ∀ (now : Int) (cacheData : CacheData) (hash author : String) (added deleted : Int),
      ¬ (r1 = r2 ∧ p1 = p2) →
      GetRevisionFileCache
        (UpdateRevisionFileCache now cacheData r1 p1 hash author added deleted) r2 p2 =
        GetRevisionFileCache cacheData r2 p2 := by
  have hinj : GenerateFileCacheKey r1 p1 = GenerateFileCacheKey r2 p2 → r1 = r2 ∧ p1 = p2 := by
    intro h
    unfold GenerateFileCacheKey at h
    have h' := congrArg String.data h
    simp only [String.data_append, List.append_assoc] at h'
    have := append_sep_inj '|' r1.data r2.data p1.data p2.data h1 h2 h'
    exact ⟨String.ext this.1, String.ext this.2⟩
  refine ⟨hinj, fun now cacheData hash author added deleted hne => ?_⟩
  have hk : GenerateFileCacheKey r1 p1 ≠ GenerateFileCacheKey r2 p2 := fun e => hne (hinj e)
  simp [GetRevisionFileCache, UpdateRevisionFileCache, GoMap.get?_set_ne _ _ hk]

/-- Witness of `GenerateFileCacheKey_inj`: revisions 100 and 101 and a path that has
the character `|`. -/
theorem GenerateFileCacheKey_inj_witness :
    (GenerateFileCacheKey "100" "a|b.txt" = GenerateFileCacheKey "101" "a|b.txt" →
      "100" = "101" ∧ "a|b.txt" = "a|b.txt") ∧
    ∀ (now : Int) (cacheData : CacheData) (hash author : String) (added deleted : Int),
      ¬ ("100" = "101" ∧ "a|b.txt" = "a|b.txt") →
      GetRevisionFileCache
        (UpdateRevisionFileCache now cacheData "100" "a|b.txt" hash author added deleted)
        "101" "a|b.txt" =
        GetRevisionFileCache cacheData "101" "a|b.txt" :=
  GenerateFileCacheKey_inj "100" "101" "a|b.txt" "a|b.txt" (by decide) (by decide)

/-- C23. After `UpdateRevisionFileCache` the lookup of the same revision and path finds
an entry with exactly the written revision, path, hash, author, lines added and lines
deleted, whatever the store held before; and after `UpdateRevisionSummaryCache` the
lookup of the revision finds an entry with the written branch URL, totals, file count
and file list. -/
theorem Update_then_Get (now : Int) (cacheData : CacheData)
    (revision filePath hash author branchURL : String)
    (linesAdded linesDeleted totalLinesAdded totalLinesDeleted fileCount : Int)
    (fileList : List String) :
    GetRevisionFileCache
      (UpdateRevisionFileCache now cacheData revision filePath hash author linesAdded
        linesDeleted) revision filePath =
      some { Revision := revision, FilePath := filePath, Hash := hash, Author := author
             LinesAdded := linesAdded, LinesDeleted := linesDeleted, Timestamp := now } ∧
    GetRevisionSummaryCache
      (UpdateRevisionSummaryCache now cacheData revision branchURL totalLinesAdded
        totalLinesDeleted fileCount fileList) revision =
      some { Revision := revision, BranchURL := branchURL
             TotalLinesAdded := totalLinesAdded, TotalLinesDeleted := totalLinesDeleted
             FileCount := fileCount, FileList := fileList, Timestamp := now } := by
  constructor
  · simp [GetRevisionFileCache, UpdateRevisionFileCache, GoMap.get?_set_self]
  · simp [GetRevisionSummaryCache, UpdateRevisionSummaryCache, GoMap.get?_set_self]

/-- C24 (code defect). On the text `contextOnlyDiff`, a well-formed block for `a.txt`
with no content line that begins with `+` or `-`, `ParseSVNDiff` panics in
`regexp.MustCompile` and yields no map; the loop, given the block, records `a.txt`
with 0 lines added and 0 deleted. -/
theorem ParseSVNDiff_contextOnlyDiff :
    (∀ re : RegexpLib, ParseSVNDiff re contextOnlyDiff =
      .error "regexp: Compile: error parsing regexp: invalid or unsupported Perl syntax") ∧
    parseMatches [[contextOnlyDiff, "/a.txt", "/a.txt"]] =
      (0, 0, [("a.txt", ⟨0, 0, false, ""⟩)]) :=
  ⟨fun _ => rfl, by decide⟩

/-- C25 (as stated, refuted). When the cache directory is absent and cannot be
created, `LoadCache` returns a nil store and the error of `os.MkdirAll`, and installs
nothing. -/
theorem LoadCache_mkdir_fails :
    LoadCache (fun _ => none)
      { dirAbsent := true, mkdirError := some "mkdir ../cache: permission denied"
        readFile := .error "open ../cache/svn_cache.json: no such file or directory" }
      none =
    { returned := none, err := some "mkdir ../cache: permission denied", installed := none } := by
  rfl

/-- C25 (amended). `LoadCache` fails its caller in one case only: the cache directory
is absent and cannot be created; then it returns a nil store with that error and
leaves the process-wide store as it was. In every other case it returns a store with a
nil error and installs that store: the fresh empty store (version `1.1`, no file entry,
no summary entry) when the file cannot be read or cannot be parsed, and the parsed
store otherwise. -/
theorem LoadCache_outcomes (unmarshal : String → Option CacheData) (fs : CacheDirState)
    (cacheData : Option CacheData) :
    (∀ e, fs.dirAbsent = true → fs.mkdirError = some e →
      LoadCache unmarshal fs cacheData =
        { returned := none, err := some e, installed := cacheData }) ∧
    ((fs.dirAbsent = false ∨ fs.mkdirError = none) →
      (∀ e, fs.readFile = .error e →
        LoadCache unmarshal fs cacheData =
          { returned := some ⟨"1.1", ⟨[], []⟩⟩, err := none
            installed := some ⟨"1.1", ⟨[], []⟩⟩ }) ∧
      (∀ data, fs.readFile = .ok data → unmarshal data = none →
        LoadCache unmarshal fs cacheData =
          { returned := some ⟨"1.1", ⟨[], []⟩⟩, err := none
            installed := some ⟨"1.1", ⟨[], []⟩⟩ }) ∧
      (∀ data cache, fs.readFile = .ok data → unmarshal data = some cache →
        LoadCache unmarshal fs cacheData =
          { returned := some cache, err := none, installed := some cache })) := by
  refine ⟨fun e hd hm => ?_, fun hcase => ?_⟩
  · unfold LoadCache
    rw [if_pos hd, hm]
  · have hread : LoadCache unmarshal fs cacheData = readCacheFile unmarshal fs := by
      unfold LoadCache
      rcases hcase with hd | hm
      · simp [hd]
      · rw [hm]; split <;> rfl
    rw [hread]
    refine ⟨fun e he => ?_, fun data hd hu => ?_, fun data cache hd hu => ?_⟩
    · unfold readCacheFile; rw [he]; rfl
    · unfold readCacheFile; rw [hd]; simp only [hu]; rfl
    · unfold readCacheFile; rw [hd]; simp only [hu]

/-- C26. Every bucket of the monthly table and every bucket of the daily table has
`Commits = 0`; and the working copy of a bucket that the loop body builds from these
tables for any further commit and branch label has `Commits = 0` as well: the body adds
to the files and lines only. -/
theorem period_buckets_commits_zero (tl : TimeLib) (commits : List Commit)
    (month day b a : String) (monthly daily : AuthorStats)
    (hm : (getMonthlyStats tl commits).bucket? month b a = some monthly)
    (hd : (getDailyStats tl commits).bucket? day b a = some daily) :
    monthly.Commits = 0 ∧ daily.Commits = 0 ∧
    ∀ (key : String) (c : Commit) (br : String),
      (periodStep key c (getMonthlyStats tl commits) br).2.Commits = 0 ∧
      (periodStep key c (getDailyStats tl commits) br).2.Commits = 0 := by
  refine ⟨?_, ?_, fun key c br => ⟨?_, ?_⟩⟩
  · rw [getMonthlyStats_bucket?] at hm
    split at hm
    · cases hm; rfl
    · cases hm
  · rw [getDailyStats_bucket?] at hd
    split at hd
    · cases hd; rfl
    · cases hd
  · rw [periodStep_snd_commits, getMonthlyStats_bucket?]
    split <;> rfl
  · rw [periodStep_snd_commits, getDailyStats_bucket?]
    split <;> rfl

/-- Witness of `period_buckets_commits_zero`: the buckets of `alice` on `trunk` for the
two-commit scenario. -/
theorem period_buckets_commits_zero_witness :
    (⟨0, 0, 0, 0, []⟩ : AuthorStats).Commits = 0 ∧
    (⟨0, 0, 0, 0, []⟩ : AuthorStats).Commits = 0 ∧
    ∀ (key : String) (c : Commit) (br : String),
      (periodStep key c (getMonthlyStats prefixTime scenarioCommits) br).2.Commits = 0 ∧
      (periodStep key c (getDailyStats prefixTime scenarioCommits) br).2.Commits = 0 :=
  period_buckets_commits_zero prefixTime scenarioCommits "2024-01" "2024-01-15" "trunk"
    "alice" ⟨0, 0, 0, 0, []⟩ ⟨0, 0, 0, 0, []⟩ (by decide) (by decide)

/-- C27 (code defect). For the commit of revision 100, whose diff is served from the
store `warmStore` with 2 lines added, 1 deleted and a nil error, the batch loop hands
over the commit list as it received it: the commit still has 0 lines added, 0 deleted
and no file details. The values are assigned to the loop variable only (its
`LinesAdded` is 2 at the end of the body). -/
theorem batchLoop_loggedCommit :
    (GetSVNDiffWithCache (stubEnv failingClient) warmStore "http://svn/trunk" "100" "" ""
      "../cache").result =
        .ok ⟨2, 1, some [("foo.txt", ⟨2, 1, true, "alice"⟩)], none⟩ ∧
    batchLoop (stubEnv failingClient) "" "" warmStore [loggedCommit] =
      .ok (warmStore, [loggedCommit]) ∧
    loggedCommit.LinesAdded = 0 ∧ loggedCommit.LinesDeleted = 0 ∧
    loggedCommit.FileDetails = [] ∧
    (batchStep (stubEnv failingClient) "" "" warmStore loggedCommit).toOption.map
      (fun out => out.2.LinesAdded) = some 2 :=
  ⟨rfl, rfl, rfl, rfl, rfl, rfl⟩

/-- C29. `UpdateRevisionFileCache` leaves the version tag and the summary map as they
were, and leaves the lookup of every key of the file map other than the key of
(revision, path) as it was; `UpdateRevisionSummaryCache` leaves the version tag and the
file map as they were, and the lookup of every other revision in the summary map. The
two lookups take the store and yield an entry: they have no store to change. -/
theorem Update_frame (now : Int) (cacheData : CacheData)
    (revision filePath hash author branchURL : String)
    (linesAdded linesDeleted totalLinesAdded totalLinesDeleted fileCount : Int)
    (fileList : List String) :
    (UpdateRevisionFileCache now cacheData revision filePath hash author linesAdded
      linesDeleted).Version = cacheData.Version ∧
    (UpdateRevisionFileCache now cacheData revision filePath hash author linesAdded
      linesDeleted).Cache.RevisionSummary = cacheData.Cache.RevisionSummary ∧
    (∀ key, key ≠ GenerateFileCacheKey revision filePath →
      (UpdateRevisionFileCache now cacheData revision filePath hash author linesAdded
        linesDeleted).Cache.RevisionFile.get? key = cacheData.Cache.RevisionFile.get? key) ∧
    (UpdateRevisionSummaryCache now cacheData revision branchURL totalLinesAdded
      totalLinesDeleted fileCount fileList).Version = cacheData.Version ∧
    (UpdateRevisionSummaryCache now cacheData revision branchURL totalLinesAdded
      totalLinesDeleted fileCount fileList).Cache.RevisionFile =
        cacheData.Cache.RevisionFile ∧
    (∀ key, key ≠ GenerateRevisionCacheKey revision →
      (UpdateRevisionSummaryCache now cacheData revision branchURL totalLinesAdded
        totalLinesDeleted fileCount fileList).Cache.RevisionSummary.get? key =
        cacheData.Cache.RevisionSummary.get? key) ∧
    (∀ r p, GetRevisionFileCache cacheData r p =
      cacheData.Cache.RevisionFile.get? (GenerateFileCacheKey r p)) ∧
    (∀ r, GetRevisionSummaryCache cacheData r =
      cacheData.Cache.RevisionSummary.get? (GenerateRevisionCacheKey r)) := by
  refine ⟨rfl, rfl, fun key hk => ?_, rfl, rfl, fun key hk => ?_, fun _ _ => rfl,
    fun _ => rfl⟩
  · exact GoMap.get?_set_ne _ _ (fun e => hk e.symm)
  · exact GoMap.get?_set_ne _ _ (fun e => hk e.symm)

/-! ## Lemmas on the order of the commits -/

theorem sorted_lists_eq (l1 l2 : List String) (h1 : l1.Sorted (· < ·))
    (h2 : l2.Sorted (· < ·)) (hm : ∀ x, x ∈ l1 ↔ x ∈ l2) : l1 = l2 :=
  List.eq_of_perm_of_sorted ((List.perm_ext_iff_of_nodup h1.nodup h2.nodup).mpr hm) h1 h2

theorem exists_mem_perm {xs ys : List Commit} (h : xs.Perm ys) (P : Commit → Prop) :
    (∃ c ∈ xs, P c) ↔ (∃ c ∈ ys, P c) := by
  constructor
  · rintro ⟨c, hc, hp⟩; exact ⟨c, h.mem_iff.mp hc, hp⟩
  · rintro ⟨c, hc, hp⟩; exact ⟨c, h.mem_iff.mpr hc, hp⟩

theorem getMonthlyStats_bucket?_perm (tl : TimeLib) {xs ys : List Commit} (h : xs.Perm ys)
    (k b a : String) :
    (getMonthlyStats tl xs).bucket? k b a = (getMonthlyStats tl ys).bucket? k b a := by
  rw [getMonthlyStats_bucket?, getMonthlyStats_bucket?]
  have := exists_mem_perm h (fun c => tl.monthKey c.Date = k ∧ b ∈ c.Branches ∧ c.Author = a)
  by_cases hx : ∃ c ∈ xs, tl.monthKey c.Date = k ∧ b ∈ c.Branches ∧ c.Author = a
  · rw [if_pos hx, if_pos (this.mp hx)]
  · rw [if_neg hx, if_neg (fun hy => hx (this.mpr hy))]

theorem getDailyStats_bucket?_perm (tl : TimeLib) {xs ys : List Commit} (h : xs.Perm ys)
    (k b a : String) :
    (getDailyStats tl xs).bucket? k b a = (getDailyStats tl ys).bucket? k b a := by
  rw [getDailyStats_bucket?, getDailyStats_bucket?]
  have := exists_mem_perm h (fun c => tl.dayKey c.Date = k ∧ b ∈ c.Branches ∧ c.Author = a)
  by_cases hx : ∃ c ∈ xs, tl.dayKey c.Date = k ∧ b ∈ c.Branches ∧ c.Author = a
  · rw [if_pos hx, if_pos (this.mp hx)]
  · rw [if_neg hx, if_neg (fun hy => hx (this.mpr hy))]

theorem prepareSeries_congr (metric : AuthorStats → Int) (T1 T2 : PeriodTable)
    (authors branches periods : List String)
    (h : ∀ k b a, T1.bucket? k b a = T2.bucket? k b a) :
    prepareSeries metric T1 authors branches periods =
      prepareSeries metric T2 authors branches periods := by
  unfold prepareSeries
  apply List.map_congr_left
  intro a _
  congr 1
  apply List.map_congr_left
  intro p _
  rw [periodTotal_eq, periodTotal_eq]
  congr 1
  apply List.map_congr_left
  intro b _
  rw [h]

theorem chart_keys_perm (tl : TimeLib) {xs ys : List Commit} (h : xs.Perm ys) :
    sortStrings (getAuthorStats xs).keys = sortStrings (getAuthorStats ys).keys ∧
    sortStrings (getBranchStats xs).keys = sortStrings (getBranchStats ys).keys ∧
    sortStrings (GoMap.keys (getMonthlyStats tl xs)) =
      sortStrings (GoMap.keys (getMonthlyStats tl ys)) ∧
    sortStrings (GoMap.keys (getDailyStats tl xs)) =
      sortStrings (GoMap.keys (getDailyStats tl ys)) := by
  refine ⟨?_, ?_, ?_, ?_⟩
  · apply sorted_lists_eq _ _ (sortStrings_sorted _ (getAuthorStats_keys xs).1)
      (sortStrings_sorted _ (getAuthorStats_keys ys).1)
    intro x
    rw [mem_sortStrings, mem_sortStrings, (getAuthorStats_keys xs).2,
      (getAuthorStats_keys ys).2]
    exact exists_mem_perm h _
  · apply sorted_lists_eq _ _ (sortStrings_sorted _ (getBranchStats_keys xs).1)
      (sortStrings_sorted _ (getBranchStats_keys ys).1)
    intro x
    rw [mem_sortStrings, mem_sortStrings, (getBranchStats_keys xs).2,
      (getBranchStats_keys ys).2]
    exact exists_mem_perm h _
  · apply sorted_lists_eq _ _ (sortStrings_sorted _ (getMonthlyStats_keys tl xs).1)
      (sortStrings_sorted _ (getMonthlyStats_keys tl ys).1)
    intro x
    rw [mem_sortStrings, mem_sortStrings, (getMonthlyStats_keys tl xs).2,
      (getMonthlyStats_keys tl ys).2]
    exact exists_mem_perm h _
  · apply sorted_lists_eq _ _ (sortStrings_sorted _ (getDailyStats_keys tl xs).1)
      (sortStrings_sorted _ (getDailyStats_keys tl ys).1)
    intro x
    rw [mem_sortStrings, mem_sortStrings, (getDailyStats_keys tl xs).2,
      (getDailyStats_keys tl ys).2]
    exact exists_mem_perm h _

theorem prepareChartData_perm (tl : TimeLib) {xs ys : List Commit} (h : xs.Perm ys) :
    prepareChartData (getMonthlyStats tl xs) (getAuthorStats xs) (getBranchStats xs)
        (getDailyStats tl xs) =
      prepareChartData (getMonthlyStats tl ys) (getAuthorStats ys) (getBranchStats ys)
        (getDailyStats tl ys) := by
  obtain ⟨ha, hb, hm, hd⟩ := chart_keys_perm tl h
  unfold prepareChartData prepareMonthlyDataFiles prepareMonthlyDataLines
    prepareDailyDataFiles prepareDailyDataLines
  simp only [ha, hb, hm, hd]
  rw [prepareSeries_congr AuthorStats.FilesChanged _ _ _ _ _
      (getMonthlyStats_bucket?_perm tl h),
    prepareSeries_congr AuthorStats.LinesAdded _ _ _ _ _
      (getMonthlyStats_bucket?_perm tl h),
    prepareSeries_congr AuthorStats.FilesChanged _ _ _ _ _
      (getDailyStats_bucket?_perm tl h),
    prepareSeries_congr AuthorStats.LinesAdded _ _ _ _ _
      (getDailyStats_bucket?_perm tl h)]

/-! ## Claim C28 -/

/-- C28. For commit lists that are permutations of each other, `GenerateAnalysisResults`
returns the same `TotalCommits`, `TotalFiles`, `TotalLinesAdded` and `TotalLinesDeleted`
and the same `ChartData`: the four key lists and the four series lists, value for
value. -/
theorem GenerateAnalysisResults_perm (tl : TimeLib) (xs ys : List Commit)
    (startDate endDate revisionRange cacheDir : String) (h : xs.Perm ys) :
    ∃ r1 r2,
      GenerateAnalysisResults tl xs startDate endDate revisionRange cacheDir = .ok r1 ∧
      GenerateAnalysisResults tl ys startDate endDate revisionRange cacheDir = .ok r2 ∧
      r1.TotalCommits = r2.TotalCommits ∧ r1.TotalFiles = r2.TotalFiles ∧
      r1.TotalLinesAdded = r2.TotalLinesAdded ∧
      r1.TotalLinesDeleted = r2.TotalLinesDeleted ∧
      r1.ChartData = r2.ChartData := by
  have hs : sumTotals xs = sumTotals ys := by
    rw [sumTotals_eq, sumTotals_eq, (h.map Commit.FilesChanged).sum_eq,
      (h.map Commit.LinesAdded).sum_eq, (h.map Commit.LinesDeleted).sum_eq]
  refine ⟨_, _, rfl, rfl, ?_, ?_, ?_, ?_, prepareChartData_perm tl h⟩
  · show ((xs.length : Nat) : Int) = ((ys.length : Nat) : Int)
    rw [h.length_eq]
  · show (sumTotals xs).1 = (sumTotals ys).1
    rw [hs]
  · show (sumTotals xs).2.1 = (sumTotals ys).2.1
    rw [hs]
  · show (sumTotals xs).2.2 = (sumTotals ys).2.2
    rw [hs]

/-- Witness of `GenerateAnalysisResults_perm`: the two-commit scenario and its
reverse. -/
theorem GenerateAnalysisResults_perm_witness :
    ∃ r1 r2,
      GenerateAnalysisResults prefixTime scenarioCommits "" "" "" "../cache" = .ok r1 ∧
      GenerateAnalysisResults prefixTime scenarioCommits.reverse "" "" "" "../cache" = .ok r2 ∧
      r1.TotalCommits = r2.TotalCommits ∧ r1.TotalFiles = r2.TotalFiles ∧
      r1.TotalLinesAdded = r2.TotalLinesAdded ∧
      r1.TotalLinesDeleted = r2.TotalLinesDeleted ∧
      r1.ChartData = r2.ChartData :=
  GenerateAnalysisResults_perm prefixTime scenarioCommits scenarioCommits.reverse "" "" ""
    "../cache" (List.reverse_perm scenarioCommits).symm

/-! ## Lemmas on `strings.Contains` and the first piece of `strings.Split` -/

theorem containsFrom_iff (sub s : List Char) :
    containsFrom sub s = true ↔ ∃ a b, s = a ++ sub ++ b := by
  induction s with
  | nil =>
    simp only [containsFrom, List.isPrefixOf_iff_prefix]
    constructor
    · rintro ⟨t, ht⟩
      exact ⟨[], t, by simpa using ht.symm⟩
    · rintro ⟨a, b, h⟩
      have h' : a ++ (sub ++ b) = [] := by simpa using h.symm
      have hs : sub = [] := (List.append_eq_nil.mp (List.append_eq_nil.mp h').2).1
      exact ⟨[], by simp [hs]⟩
  | cons c rest ih =>
    simp only [containsFrom, Bool.or_eq_true, List.isPrefixOf_iff_prefix, ih]
    constructor
    · rintro (⟨t, ht⟩ | ⟨a, b, h⟩)
      · exact ⟨[], t, by simpa using ht.symm⟩
      · exact ⟨c :: a, b, by simp [h]⟩
    · rintro ⟨a, b, h⟩
      cases a with
      | nil => exact Or.inl ⟨b, by simpa using h.symm⟩
      | cons x a' =>
        simp only [List.cons_append, List.cons.injEq] at h
        exact Or.inr ⟨a', b, h.2⟩

theorem splitScan_first (sep : List Char) (hsep : sep ≠ []) (s : List Char)
    (h : ∃ a b, s = a ++ sep ++ b) :
    ∃ pre post, s = pre ++ sep ++ post ∧
      (∀ a b, s = a ++ sep ++ b → pre.length ≤ a.length) ∧
      ∀ cur, ∃ others, splitScan sep s 0 cur = (cur.reverse ++ pre) :: others := by
  induction s with
  | nil =>
    obtain ⟨a, b, h⟩ := h
    have h' : a ++ (sep ++ b) = [] := by simpa using h.symm
    exact absurd (List.append_eq_nil.mp (List.append_eq_nil.mp h').2).1 hsep
  | cons c rest ih =>
    by_cases hp : sep.isPrefixOf (c :: rest) = true
    · obtain ⟨t, ht⟩ := List.isPrefixOf_iff_prefix.mp hp
      refine ⟨[], t, by simpa using ht.symm, fun a b _ => Nat.zero_le _, fun cur => ?_⟩
      exact ⟨splitScan sep rest (sep.length - 1) [], by simp [splitScan, hp]⟩
    · have hne : ∀ a b, c :: rest = a ++ sep ++ b →
          ∃ a', a = c :: a' ∧ rest = a' ++ sep ++ b := by
        intro a b hab
        cases a with
        | nil =>
          exact absurd (List.isPrefixOf_iff_prefix.mpr ⟨b, by simpa using hab.symm⟩) hp
        | cons x a' =>
          simp only [List.cons_append, List.cons.injEq] at hab
          exact ⟨a', by rw [hab.1], hab.2⟩
      obtain ⟨a, b, hab⟩ := h
      obtain ⟨a', _, hrest⟩ := hne a b hab
      obtain ⟨pre, post, h1, h2, h3⟩ := ih ⟨a', b, hrest⟩
      refine ⟨c :: pre, post, by simp [h1], fun a2 b2 h22 => ?_, fun cur => ?_⟩
      · obtain ⟨a2', ha2, hr2⟩ := hne a2 b2 h22
        rw [ha2]
        simp only [List.length_cons]
        exact Nat.succ_le_succ (h2 a2' b2 hr2)
      · obtain ⟨others, ho⟩ := h3 (c :: cur)
        refine ⟨others, ?_⟩
        simp only [splitScan, hp, Bool.false_eq_true, if_false]
        rw [ho]
        simp

theorem string_decomp_iff (s a sep b : String) :
    s = a ++ sep ++ b ↔ s.data = a.data ++ sep.data ++ b.data := by
  constructor
  · intro h; rw [h]; simp
  · intro h; apply String.ext; simpa using h

theorem Contains_iff (path sep : String) :
    Contains path sep = true ↔ ∃ a b : String, path = a ++ sep ++ b := by
  unfold Contains
  rw [containsFrom_iff]
  constructor
  · rintro ⟨a, b, h⟩
    exact ⟨String.mk a, String.mk b, (string_decomp_iff _ _ _ _).mpr h⟩
  · rintro ⟨a, b, h⟩
    exact ⟨a.data, b.data, (string_decomp_iff _ _ _ _).mp h⟩

theorem extractBranch_of_contains (path : String)
    (h : ∃ a b : String, path = a ++ "/src/main/" ++ b) :
    ∃ pre post : List Char, extractBranch path = String.mk pre ∧
      path.data = pre ++ "/src/main/".data ++ post ∧
      ∀ a b, path.data = a ++ "/src/main/".data ++ b → pre.length ≤ a.length := by
  have hc : Contains path "/src/main/" = true := (Contains_iff _ _).mpr h
  have hl : ∃ a b, path.data = a ++ "/src/main/".data ++ b := by
    obtain ⟨a, b, hab⟩ := h
    exact ⟨a.data, b.data, (string_decomp_iff _ _ _ _).mp hab⟩
  obtain ⟨pre, post, h1, h2, h3⟩ := splitScan_first "/src/main/".data (by decide) path.data hl
  obtain ⟨others, ho⟩ := h3 []
  refine ⟨pre, post, ?_, h1, h2⟩
  unfold extractBranch
  rw [if_pos hc]
  have hs : Split path "/src/main/" = String.mk pre :: others.map String.mk := by
    unfold Split
    have he : ("/src/main/" : String).data.isEmpty = false := by decide
    rw [he]
    simp only [Bool.false_eq_true, if_false, ho, List.reverse_nil, List.nil_append,
      List.map_cons]
  simp only [hs, List.length_cons, gt_iff_lt, Nat.zero_lt_succ, if_true]
  rfl

/-! ## Claim C30 -/

/-- C30. For every path: `extractBranch` returns `trunk` when the path does not contain
`/src/main/`; otherwise it returns the part of the path before the first occurrence of
`/src/main/`: the path is the result, then `/src/main/`, then a rest, no occurrence
starts before the end of the result, and the result does not contain `/src/main/`. It
returns the empty string when the path starts with `/src/main/`. -/
theorem extractBranch_spec (path : String) :
    ((¬ ∃ a b : String, path = a ++ "/src/main/" ++ b) → extractBranch path = "trunk") ∧
    ((∃ a b : String, path = a ++ "/src/main/" ++ b) →
      (∃ rest : String, path = extractBranch path ++ "/src/main/" ++ rest) ∧
      (∀ a b : String, path = a ++ "/src/main/" ++ b →
        (extractBranch path).length ≤ a.length) ∧
      ¬ ∃ a b : String, extractBranch path = a ++ "/src/main/" ++ b) ∧
    (HasPrefix path "/src/main/" = true → extractBranch path = "") := by
  have hmin : (∃ a b : String, path = a ++ "/src/main/" ++ b) →
      (∃ rest : String, path = extractBranch path ++ "/src/main/" ++ rest) ∧
      (∀ a b : String, path = a ++ "/src/main/" ++ b →
        (extractBranch path).length ≤ a.length) := by
    intro h
    obtain ⟨pre, post, he, hd, hm⟩ := extractBranch_of_contains path h
    refine ⟨⟨String.mk post, ?_⟩, fun a b hab => ?_⟩
    · rw [he]
      exact (string_decomp_iff _ _ _ _).mpr hd
    · rw [he]
      exact hm a.data b.data ((string_decomp_iff _ _ _ _).mp hab)
  refine ⟨fun h => ?_, fun h => ⟨(hmin h).1, (hmin h).2, ?_⟩, fun h => ?_⟩
  · have hc : Contains path "/src/main/" = false := by
      cases hcc : Contains path "/src/main/" with
      | false => rfl
      | true => exact absurd ((Contains_iff _ _).mp hcc) h
    unfold extractBranch
    rw [hc]
    rfl
  · rintro ⟨a, b, hab⟩
    obtain ⟨⟨rest, hr⟩, hm⟩ := hmin h
    have hpath : path = a ++ "/src/main/" ++ (b ++ "/src/main/" ++ rest) := by
      rw [hr]
      conv_lhs => rw [hab]
      apply String.ext
      simp
    have hle := hm a _ hpath
    rw [hab] at hle
    simp only [String.length_append] at hle
    have h10 : ("/src/main/" : String).length = 10 := by decide
    omega
  · unfold HasPrefix at h
    obtain ⟨t, ht⟩ := List.isPrefixOf_iff_prefix.mp h
    have hp : path = "" ++ "/src/main/" ++ String.mk t := by
      apply String.ext
      simpa using ht.symm
    have hle : (extractBranch path).length ≤ ("" : String).length :=
      (hmin ⟨"", String.mk t, hp⟩).2 "" (String.mk t) hp
    have hz : (extractBranch path).data.length = 0 := Nat.le_zero.mp hle
    apply String.ext
    rw [List.length_eq_zero.mp hz]

/-! ## Lemmas on the conversion of log entries -/

theorem foldl_append_map {α β : Type} (f : α → β) (l : List α) (init : List β) :
    l.foldl (fun acc x => acc ++ [f x]) init = init ++ l.map f := by
  induction l generalizing init with
  | nil => simp
  | cons x xs ih =>
    rw [List.foldl_cons, ih]
    simp

theorem convertPaths_foldl (paths : List Path) (bs : List String) (cfs : List ChangedFile) :
    paths.foldl (fun (acc : List String × List ChangedFile) path =>
      let branch := extractBranch path.Text
      (acc.1 ++ [branch],
        acc.2 ++ [{ Path := path.Text, Action := path.Action, Branch := branch }])) (bs, cfs) =
    (bs ++ paths.map (fun p => extractBranch p.Text),
     cfs ++ paths.map (fun p =>
       ({ Path := p.Text, Action := p.Action, Branch := extractBranch p.Text } : ChangedFile))) := by
  induction paths generalizing bs cfs with
  | nil => simp
  | cons p ps ih =>
    rw [List.foldl_cons, ih]
    simp

theorem convertPaths_eq (paths : List Path) :
    convertPaths paths =
      (paths.map (fun p => extractBranch p.Text),
       paths.map (fun p =>
         ({ Path := p.Text, Action := p.Action, Branch := extractBranch p.Text } :
           ChangedFile))) := by
  unfold convertPaths
  rw [convertPaths_foldl]
  simp

theorem firstBranchURL_eq (branches : List String) :
    firstBranchURL branches = branches.head?.getD "" := by
  unfold firstBranchURL
  cases branches with
  | nil => rfl
  | cons b bs =>
    simp only [List.length_cons, gt_iff_lt, Nat.zero_lt_succ, if_true, List.head?_cons,
      Option.getD_some]
    split <;> rfl

/-! ## Claim C31 -/

/-- C31. For every list of log entries, `ConvertLogEntriesToCommits` returns one commit
per entry, in the order of the entries. The commit of an entry has the revision and
the author of the entry, the formatted date, `LinesAdded = 0`, `LinesDeleted = 0`, an
empty `FileDetails` map, `FilesChanged` equal to the number of paths of the entry, one
branch label per path in path order, the label of a path being `extractBranch` of the
path (labels are not deduplicated), one `ChangedFile` per path in path order with the
text, the action and the label of the path, and as `BranchURL` the first branch label,
or the empty string when the entry has no path. -/
theorem ConvertLogEntriesToCommits_spec {Time : Type} (formatRFC3339 : Time → String)
    (entries : List (LogEntry Time)) :
    ConvertLogEntriesToCommits formatRFC3339 entries =
      entries.map (fun e =>
        { Revision := e.Revision
          Author := e.Author
          Date := formatRFC3339 e.Date
          DateStr := formatRFC3339 e.Date
          BranchURL := ((e.Paths.map fun p => extractBranch p.Text).head?).getD ""
          FilesChanged := e.Paths.length
          ChangedFiles := e.Paths.map fun p =>
            { Path := p.Text, Action := p.Action, Branch := extractBranch p.Text }
          Branches := e.Paths.map fun p => extractBranch p.Text
          LinesAdded := 0
          LinesDeleted := 0
          FileDetails := [] }) ∧
    (ConvertLogEntriesToCommits formatRFC3339 entries).length = entries.length ∧
    ∀ c ∈ ConvertLogEntriesToCommits formatRFC3339 entries,
      c.Branches = c.ChangedFiles.map ChangedFile.Branch ∧
      c.Branches.length = c.FilesChanged ∧ c.ChangedFiles.length = c.FilesChanged := by
  have hmap : ConvertLogEntriesToCommits formatRFC3339 entries =
      entries.map (fun e =>
        { Revision := e.Revision
          Author := e.Author
          Date := formatRFC3339 e.Date
          DateStr := formatRFC3339 e.Date
          BranchURL := ((e.Paths.map fun p => extractBranch p.Text).head?).getD ""
          FilesChanged := e.Paths.length
          ChangedFiles := e.Paths.map fun p =>
            { Path := p.Text, Action := p.Action, Branch := extractBranch p.Text }
          Branches := e.Paths.map fun p => extractBranch p.Text
          LinesAdded := 0
          LinesDeleted := 0
          FileDetails := [] }) := by
    unfold ConvertLogEntriesToCommits
    simp only [convertPaths_eq, firstBranchURL_eq]
    rw [foldl_append_map]
    simp
  refine ⟨hmap, by rw [hmap, List.length_map], fun c hc => ?_⟩
  rw [hmap] at hc
  obtain ⟨e, _, rfl⟩ := List.mem_map.mp hc
  refine ⟨by simp [List.map_map, Function.comp_def], by simp, by simp⟩

/-! ## The second call after a full fetch -/

theorem storeParsed_cachedResult (env : Env) (cacheData : CacheData)
    (branchURL revision username password : String) (calls : List ExternalCall)
    (a d : Int) (fileDetails : GoMap FileDetail) (hn : fileDetails.keys.Nodup)
    (hok : ∀ p ∈ fileDetails.keys, ∃ content,
      env.svn.GetSVNFileContent branchURL revision p username password = .ok content) :
    ∃ cached : GoMap FileDetail,
      cachedResult (storeParsed env cacheData branchURL revision username password calls a d
        fileDetails).cacheData revision = some ⟨a, d, some cached, none⟩ ∧
      ∀ q, cached.get? q = (fileDetails.get? q).map fun det =>
        ({ LinesAdded := det.LinesAdded, LinesDeleted := det.LinesDeleted
           Cached := true, Author := det.Author } : FileDetail) := by
  obtain ⟨_, _, h3, h4⟩ := storeParsed_facts env cacheData branchURL revision username
    password calls a d fileDetails hn
  have hentry : ∀ p ∈ fileDetails.keys, ∃ det content, fileDetails.get? p = some det ∧
      GetRevisionFileCache (storeParsed env cacheData branchURL revision username password
        calls a d fileDetails).cacheData revision p =
        some { Revision := revision, FilePath := p, Hash := env.md5hex content
               Author := det.Author, LinesAdded := det.LinesAdded
               LinesDeleted := det.LinesDeleted, Timestamp := env.now } := by
    intro p hp
    obtain ⟨content, hc⟩ := hok p hp
    obtain ⟨det, hd⟩ := Option.isSome_iff_exists.mp ((GoMap.mem_keys_iff _ p).mp hp)
    refine ⟨det, content, hd, ?_⟩
    rw [h4 p, hd, hc]
  have hall : ∀ p ∈ fileDetails.keys,
      (GetRevisionFileCache (storeParsed env cacheData branchURL revision username password
        calls a d fileDetails).cacheData revision p).isSome = true := by
    intro p hp
    obtain ⟨det, content, _, hg⟩ := hentry p hp
    rw [hg]
    rfl
  obtain ⟨c1, _, c3⟩ := collectCached_foldl _ revision fileDetails.keys ([], false) hall
  have hflag : (collectCached (storeParsed env cacheData branchURL revision username password
      calls a d fileDetails).cacheData revision fileDetails.keys).2 = false := c1
  refine ⟨(collectCached (storeParsed env cacheData branchURL revision username password
      calls a d fileDetails).cacheData revision fileDetails.keys).1, ?_, fun q => ?_⟩
  · unfold cachedResult
    rw [h3]
    simp [hflag]
  · have hq := c3 q
    simp only [GoMap.get?] at hq
    show GoMap.get? (collectCached _ revision fileDetails.keys).1 q = _
    unfold collectCached
    rw [hq]
    by_cases hm : q ∈ fileDetails.keys
    · obtain ⟨det, content, hd, hg⟩ := hentry q hm
      rw [if_pos hm, hg, hd]
      rfl
    · have hnone : fileDetails.get? q = none := by
        cases hg : fileDetails.get? q with
        | none => rfl
        | some v => exact absurd ((GoMap.mem_keys_iff _ q).mpr (by simp [hg])) hm
      rw [if_neg hm, hnone]
      rfl

/-! ## Claim C5 -/

/-- C5 (as stated, refuted). After the code of `GetSVNDiffWithCache` that follows the
parse has stored the parsed file `a/foo.txt` and returned it with `Cached = false` and a
nil error, a second call for the same revision returns the entry with `Cached = true`:
the per-file maps of the two calls differ. And when the content request of the first
call failed, the second call makes the diff request again. -/
theorem second_call_differs :
    (storeParsed (stubEnv (stubClient fooDiff)) getDefaultCache "http://svn/trunk" "100"
      "" "" [ExternalCall.diff "http://svn/trunk" "100"] 2 1
      [("a/foo.txt", ⟨2, 1, false, ""⟩)]).result =
        .ok ⟨2, 1, some [("a/foo.txt", ⟨2, 1, false, ""⟩)], none⟩ ∧
    (GetSVNDiffWithCache (stubEnv (stubClient fooDiff))
      (storeParsed (stubEnv (stubClient fooDiff)) getDefaultCache "http://svn/trunk" "100"
        "" "" [ExternalCall.diff "http://svn/trunk" "100"] 2 1
        [("a/foo.txt", ⟨2, 1, false, ""⟩)]).cacheData
      "http://svn/trunk" "100" "" "" "../cache").result =
        .ok ⟨2, 1, some [("a/foo.txt", ⟨2, 1, true, ""⟩)], none⟩ ∧
    (storeParsed (stubEnv (contentFailingClient fooDiff)) getDefaultCache "http://svn/trunk"
      "100" "" "" [ExternalCall.diff "http://svn/trunk" "100"] 2 1
      [("a/foo.txt", ⟨2, 1, false, ""⟩)]).result =
        .ok ⟨2, 1, some [("a/foo.txt", ⟨2, 1, false, ""⟩)], none⟩ ∧
    (GetSVNDiffWithCache (stubEnv (contentFailingClient fooDiff))
      (storeParsed (stubEnv (contentFailingClient fooDiff)) getDefaultCache
        "http://svn/trunk" "100" "" "" [ExternalCall.diff "http://svn/trunk" "100"] 2 1
        [("a/foo.txt", ⟨2, 1, false, ""⟩)]).cacheData
      "http://svn/trunk" "100" "" "" "../cache").calls =
        [ExternalCall.diff "http://svn/trunk" "100"] :=
  ⟨rfl, rfl, rfl, rfl⟩

/-- C5 (amended). A call of `GetSVNDiffWithCache` that makes no external call (it is
served from the cache) leaves the store as it was, and a second call with the same
arguments, with any collaborator, has the same outcome: the identical totals and
per-file map and no external call. And after the code that follows the parse has
stored a parsed result whose content requests all succeeded, a second call with the
same arguments, with any collaborator, makes no external call, leaves the store as it
is, and returns with a nil error the same totals and a per-file map with the same
paths, lines added, lines deleted and authors, each entry with `Cached = true` where
the first call returned `Cached = false`. -/
theorem GetSVNDiffWithCache_after_fetch (env env2 : Env) (cacheData : CacheData)
    (branchURL revision username password cacheDir : String) (calls : List ExternalCall)
    (found : List (List String))
    (hok : ∀ p ∈ (parseMatches found).2.2.keys, ∃ content,
      env.svn.GetSVNFileContent branchURL revision p username password = .ok content) :
    ((GetSVNDiffWithCache env cacheData branchURL revision username password cacheDir).calls
        = [] →
      GetSVNDiffWithCache env2
        (GetSVNDiffWithCache env cacheData branchURL revision username password
          cacheDir).cacheData branchURL revision username password cacheDir =
      GetSVNDiffWithCache env cacheData branchURL revision username password cacheDir) ∧
    (storeParsed env cacheData branchURL revision username password calls
      (parseMatches found).1 (parseMatches found).2.1 (parseMatches found).2.2).result =
        .ok ⟨(parseMatches found).1, (parseMatches found).2.1,
          some (parseMatches found).2.2, none⟩ ∧
    (∀ p det, (parseMatches found).2.2.get? p = some det → det.Cached = false) ∧
    ∃ cached : GoMap FileDetail,
      GetSVNDiffWithCache env2
        (storeParsed env cacheData branchURL revision username password calls
          (parseMatches found).1 (parseMatches found).2.1
          (parseMatches found).2.2).cacheData
        branchURL revision username password cacheDir =
      { cacheData := (storeParsed env cacheData branchURL revision username password calls
          (parseMatches found).1 (parseMatches found).2.1
          (parseMatches found).2.2).cacheData
        calls := [], saved := none
        result := .ok ⟨(parseMatches found).1, (parseMatches found).2.1,
          some cached, none⟩ } ∧
      ∀ p, cached.get? p = ((parseMatches found).2.2.get? p).map fun det =>
        ({ LinesAdded := det.LinesAdded, LinesDeleted := det.LinesDeleted
           Cached := true, Author := det.Author } : FileDetail) := by
  obtain ⟨hnd, hinv⟩ := parseMatches_inv found
  refine ⟨fun hc => ?_, rfl, fun p det hp => (hinv p det hp).2, ?_⟩
  · unfold GetSVNDiffWithCache at hc ⊢
    cases hcr : cachedResult cacheData revision with
    | some r => simp only [hcr]
    | none =>
      simp only [hcr] at hc
      cases hd : env.svn.GetSVNDiff branchURL revision username password with
      | error e => simp [hd] at hc
      | ok dtext => simp [hd, ParseSVNDiff_panics] at hc
  · obtain ⟨cached, h1, h2⟩ := storeParsed_cachedResult env cacheData branchURL revision
      username password calls (parseMatches found).1 (parseMatches found).2.1
      (parseMatches found).2.2 hnd hok
    refine ⟨cached, ?_, h2⟩
    unfold GetSVNDiffWithCache
    rw [h1]

/-- Witness of `GetSVNDiffWithCache_after_fetch`: the two blocks of `twoBlockMatches`
stored into the empty store with a client whose content requests succeed. -/
theorem GetSVNDiffWithCache_after_fetch_witness :
    ((GetSVNDiffWithCache (stubEnv (stubClient twoBlockDiff)) getDefaultCache
        "http://svn/trunk" "100" "" "" "../cache").calls = [] →
      GetSVNDiffWithCache (stubEnv failingClient)
        (GetSVNDiffWithCache (stubEnv (stubClient twoBlockDiff)) getDefaultCache
          "http://svn/trunk" "100" "" "" "../cache").cacheData
        "http://svn/trunk" "100" "" "" "../cache" =
      GetSVNDiffWithCache (stubEnv (stubClient twoBlockDiff)) getDefaultCache
        "http://svn/trunk" "100" "" "" "../cache") ∧
    (storeParsed (stubEnv (stubClient twoBlockDiff)) getDefaultCache "http://svn/trunk"
      "100" "" "" [ExternalCall.diff "http://svn/trunk" "100"]
      (parseMatches twoBlockMatches).1 (parseMatches twoBlockMatches).2.1
      (parseMatches twoBlockMatches).2.2).result =
        .ok ⟨(parseMatches twoBlockMatches).1, (parseMatches twoBlockMatches).2.1,
          some (parseMatches twoBlockMatches).2.2, none⟩ ∧
    (∀ p det, (parseMatches twoBlockMatches).2.2.get? p = some det → det.Cached = false) ∧
    ∃ cached : GoMap FileDetail,
      GetSVNDiffWithCache (stubEnv failingClient)
        (storeParsed (stubEnv (stubClient twoBlockDiff)) getDefaultCache "http://svn/trunk"
          "100" "" "" [ExternalCall.diff "http://svn/trunk" "100"]
          (parseMatches twoBlockMatches).1 (parseMatches twoBlockMatches).2.1
          (parseMatches twoBlockMatches).2.2).cacheData
        "http://svn/trunk" "100" "" "" "../cache" =
      { cacheData := (storeParsed (stubEnv (stubClient twoBlockDiff)) getDefaultCache
          "http://svn/trunk" "100" "" "" [ExternalCall.diff "http://svn/trunk" "100"]
          (parseMatches twoBlockMatches).1 (parseMatches twoBlockMatches).2.1
          (parseMatches twoBlockMatches).2.2).cacheData
        calls := [], saved := none
        result := .ok ⟨(parseMatches twoBlockMatches).1, (parseMatches twoBlockMatches).2.1,
          some cached, none⟩ } ∧
      ∀ p, cached.get? p = ((parseMatches twoBlockMatches).2.2.get? p).map fun det =>
        ({ LinesAdded := det.LinesAdded, LinesDeleted := det.LinesDeleted
           Cached := true, Author := det.Author } : FileDetail) :=
  GetSVNDiffWithCache_after_fetch (stubEnv (stubClient twoBlockDiff))
    (stubEnv failingClient) getDefaultCache "http://svn/trunk" "100" "" "" "../cache"
    [ExternalCall.diff "http://svn/trunk" "100"] twoBlockMatches
    (fun _ _ => ⟨"", rfl⟩)

end SvnStat
